import Mathlib

set_option linter.unusedVariables false

/-! # Subscription synchronizer: shallow embedding

Embedding of the subscription store module of
`apps/renderer/src/modules/discover/recommendations-card.tsx`: the data model
(`SubscriptionState`), the operations of `SubscriptionActions`, and theorems
settling the claims about them.  JavaScript arrays become `List`, objects keyed
by feed id become association lists with unique keys, the store's
`feedIdByView` record becomes a function out of the six-element view type, and
asynchronous remote calls become an explicit `Bool` outcome parameter.  Sibling
collaborators that live outside the provided sources (the entry store, the
unread-count store, the `doMutationAndTransaction` helper, `capitalizeFirstLetter`
and the external `tldts` domain parser) are modelled from the spec, each with a
doc comment saying so. -/

/-- The six feed view buckets (the renderer's `FeedViewType` enum). -/
inductive FeedViewType where
  | Articles
  | SocialMedia
  | Pictures
  | Videos
  | Audios
  | Notifications
deriving DecidableEq, Fintype, Repr

/-- The slice of a feed record that the subscription module reads (`feeds.siteUrl`). -/
structure Feed where
  siteUrl : Option String
deriving DecidableEq, Repr

/-- A subscription as returned by the API (`SubscriptionModel`), with its
optional embedded `feeds` record. -/
structure SubscriptionModel where
  feedId : String
  view : FeedViewType
  category : Option String
  feeds : Option Feed
deriving DecidableEq, Repr

/-- `SubscriptionFlatModel`: the stored shape, `feeds` omitted and an optional
derived `defaultCategory` added. -/
structure SubscriptionFlatModel where
  feedId : String
  view : FeedViewType
  category : Option String
  defaultCategory : Option String
deriving DecidableEq, Repr

/-- JavaScript falsiness of an optional string: `undefined`, `null` and the
empty string are falsy (the source tests `!subscription.category` and
`!siteUrl`). -/
def falsyStr : Option String → Bool
  | none => true
  | some s => decide (s = "")

/-- Modelled from the spec: `capitalizeFirstLetter` is imported from
`~/lib/utils`, which is not among the provided sources; the spec's
"capitalized domain" upper-cases the first letter. -/
def capitalizeFirstLetter (s : String) : String :=
  match s.data with
  | [] => s
  | c :: rest => String.mk (c.toUpper :: rest)

/-- Split a character list at every occurrence of a separator (helper for
`parseDomain`). -/
def splitOnChar (sep : Char) : List Char → List (List Char)
  | [] => [[]]
  | a :: rest =>
    match splitOnChar sep rest with
    | [] => [[]]
    | cur :: parts => if a = sep then [] :: cur :: parts else (a :: cur) :: parts

/-- The characters following the first `://`, if any (helper for
`parseDomain`). -/
def afterSchemeSep : List Char → Option (List Char)
  | [] => none
  | ':' :: '/' :: '/' :: rest => some rest
  | _ :: rest => afterSchemeSep rest

/-- Hostname of a URL: the portion after any scheme separator and before any
path, query, fragment or port (helper for `parseDomain`). -/
def hostnameOf (url : String) : List Char :=
  let afterScheme :=
    match afterSchemeSep url.data with
    | some rest => rest
    | none => url.data
  afterScheme.takeWhile (fun c => !(c == '/') && !(c == '?') && !(c == '#') && !(c == ':'))

/-- Modelled from the spec: the registrable-domain extraction the module
delegates to the external `tldts` `parse` call ("the registrable domain of the
associated feed's site URL").  The registrable domain is formed by the last two
dot-separated labels of the hostname when it has at least two nonempty labels,
and is absent otherwise. -/
def parseDomain (url : String) : Option String :=
  let labels := splitOnChar '.' (hostnameOf url)
  if labels.length < 2 || labels.any (fun l => l.isEmpty) then none
  else
    match labels.reverse with
    | tld :: sld :: _ => some (String.mk (sld ++ '.' :: tld))
    | _ => none

/-- One step of `morphResponseData`: clone the subscription and, when it has no
(truthy) category and a feeds record is present, derive `defaultCategory` from
the feed's site URL, falling back to the feed id. -/
def morphOne (subscription : SubscriptionModel) : SubscriptionFlatModel :=
  let cloned : SubscriptionFlatModel :=
    { feedId := subscription.feedId, view := subscription.view,
      category := subscription.category, defaultCategory := none }
  if falsyStr subscription.category then
    match subscription.feeds with
    | none => cloned
    | some feed =>
      match feed.siteUrl with
      | none => { cloned with defaultCategory := some subscription.feedId }
      | some siteUrl =>
        if siteUrl = "" then { cloned with defaultCategory := some subscription.feedId }
        else
          match parseDomain siteUrl with
          | some domain => { cloned with defaultCategory := some (capitalizeFirstLetter domain) }
          | none => { cloned with defaultCategory := some subscription.feedId }
  else cloned

/-- `morphResponseData` from the source: flatten every fetched subscription. -/
def morphResponseData (data : List SubscriptionModel) : List SubscriptionFlatModel :=
  data.map morphOne

/-- The `data` record of the store: an association list keyed by feed id
(JavaScript object keys are unique and iterated in insertion order). -/
abbrev DataMap := List (String × SubscriptionFlatModel)

/-- Reading `state.data[feedId]`. -/
def dataLookup : DataMap → String → Option SubscriptionFlatModel
  | [], _ => none
  | p :: rest, f => if p.1 = f then some p.2 else dataLookup rest f

/-- Writing `state.data[feedId] = value`: replace in place when the key exists,
append otherwise. -/
def setDataEntry : DataMap → String → SubscriptionFlatModel → DataMap
  | [], k, v => [(k, v)]
  | p :: rest, k, v => if p.1 = k then (k, v) :: rest else p :: setDataEntry rest k v

/-- `delete draft.data[feedId]`. -/
def removeKey : DataMap → String → DataMap
  | [], _ => []
  | p :: rest, k => if p.1 = k then removeKey rest k else p :: removeKey rest k

/-- `SubscriptionState`: the data map plus the per-view buckets of feed ids. -/
structure SubscriptionState where
  data : DataMap
  feedIdByView : FeedViewType → List String

/-- `emptyDataIdByView`: every view bucket empty. -/
def emptyDataIdByView : FeedViewType → List String := fun _ => []

/-- Replace one view's bucket, leaving the other buckets untouched. -/
def updateBucket (b : FeedViewType → List String) (v : FeedViewType)
    (l : List String) : FeedViewType → List String :=
  fun u => if u = v then l else b u

/-- Number of occurrences of a feed id in a bucket. -/
def occ : List String → String → Nat
  | [], _ => 0
  | a :: rest, f => (if a = f then 1 else 0) + occ rest f

/-- Remove the first occurrence of an element, if any. -/
def eraseFirst : List String → String → List String
  | [], _ => []
  | a :: rest, f => if a = f then rest else a :: eraseFirst rest f

/-- JavaScript `Array.prototype.indexOf`: first index of the element, `-1` when
absent. -/
def jsIndexOf : List String → String → Int
  | [], _ => -1
  | a :: rest, f =>
    if a = f then 0
    else
      let r := jsIndexOf rest f
      if r < 0 then -1 else r + 1

/-- JavaScript `array.splice(i, 1)`: a negative start counts from the end
(clamped at zero), and at most one element is removed. -/
def spliceOne (l : List String) (i : Int) : List String :=
  let s : Nat := if i < 0 then ((l.length : Int) + i).toNat else i.toNat
  l.take s ++ l.drop (s + 1)

/-- `array.splice(array.indexOf(f), 1)` as written in `unfollow` and
`changeCategoryView`. -/
def spliceRemove (l : List String) (f : String) : List String :=
  spliceOne l (jsIndexOf l f)

/-- `upsertMany` applied to the in-memory state: write each subscription into
the data map (`omit(subscription, "feeds")` is the identity here, the flat
model having no `feeds` field) and push its feed id onto its view's bucket. -/
def upsertManyLocal (subscriptions : List SubscriptionFlatModel)
    (s : SubscriptionState) : SubscriptionState :=
  subscriptions.foldl
    (fun st subscription =>
      { data := setDataEntry st.data subscription.feedId subscription,
        feedIdByView := updateBucket st.feedIdByView subscription.view
          (st.feedIdByView subscription.view ++ [subscription.feedId]) })
    s

/-- The state effect of `fetchByView`: reset the requested bucket (all buckets
when no view is given), then upsert the morphed response.  The data map is not
reset.  The accompanying `feedActions.upsertMany` writes to the sibling feed
store, which this embedding treats as a read-only environment. -/
def fetchByViewLocal (view : Option FeedViewType)
    (response : List SubscriptionModel) (s : SubscriptionState) :
    SubscriptionState :=
  let s1 :=
    match view with
    | some v => { s with feedIdByView := updateBucket s.feedIdByView v [] }
    | none => { s with feedIdByView := emptyDataIdByView }
  upsertManyLocal (morphResponseData response) s1

/-- The state effect of `unfollow`: delete the data entry and run
`splice(indexOf(feedId), 1)` on every bucket. -/
def unfollowLocal (feedId : String) (s : SubscriptionState) : SubscriptionState :=
  { data := removeKey s.data feedId,
    feedIdByView := fun v => spliceRemove (s.feedIdByView v) feedId }

/-- The `category === c || defaultCategory === c` test of
`changeCategoryView`, read through the data map. -/
def matchesCategory (d : DataMap) (category f : String) : Bool :=
  match dataLookup d f with
  | none => false
  | some subscription =>
    decide (subscription.category = some category) ||
      decide (subscription.defaultCategory = some category)

/-- `folderFeedIds`: the feed ids of the current view's bucket whose
subscription matches the category. -/
def matchedIds (s : SubscriptionState) (category : String) (v : FeedViewType) :
    List String :=
  (s.feedIdByView v).filter (matchesCategory s.data category)

/-- `feed.view = changeToView`: overwrite the stored view of a subscription. -/
def setViewTo (v : FeedViewType) (x : SubscriptionFlatModel) : SubscriptionFlatModel :=
  { x with view := v }

/-- One iteration of `changeCategoryView`'s loop over the matched feed ids:
update the stored view, splice the id out of the current view's bucket and push
it onto the target bucket (when both views coincide the splice and the push act
on the same bucket, as they do on the same array in the source). -/
def changeViewStep (currentView changeToView : FeedViewType)
    (st : SubscriptionState) (feedId : String) : SubscriptionState :=
  let d := st.data.map (fun p =>
    if p.1 = feedId then (p.1, setViewTo changeToView p.2) else p)
  let b1 := updateBucket st.feedIdByView currentView
    (spliceRemove (st.feedIdByView currentView) feedId)
  let b2 := updateBucket b1 changeToView (b1 changeToView ++ [feedId])
  { data := d, feedIdByView := b2 }

/-- The state effect of `changeCategoryView` after the remote patches succeed. -/
def changeCategoryViewLocal (category : String)
    (currentView changeToView : FeedViewType) (s : SubscriptionState) :
    SubscriptionState :=
  (matchedIds s category currentView).foldl
    (changeViewStep currentView changeToView) s

/-- Set a subscription's category to the new name and clear `defaultCategory`
(the per-match update of `renameCategory`). -/
def renameTo (newCategory : String) (x : SubscriptionFlatModel) :
    SubscriptionFlatModel :=
  { x with category := some newCategory, defaultCategory := none }

/-- The state effect of `renameCategory`: collect the ids matching the old
name, then apply `renameTo` to each collected id's entry. -/
def renameCategoryLocal (lastCategory newCategory : String)
    (s : SubscriptionState) : SubscriptionState :=
  let subscriptionIds :=
    (s.data.filter (fun p =>
      decide (p.2.category = some lastCategory) ||
        decide (p.2.defaultCategory = some lastCategory))).map Prod.fst
  { s with
    data := subscriptionIds.foldl
      (fun d feedId => d.map (fun p =>
        if p.1 = feedId then (p.1, renameTo newCategory p.2) else p))
      s.data }

/-- Per-entry effect of `deleteCategory`: the source returns early (leaving the
subscription untouched) when the feed is absent from the feed store or has no
truthy `siteUrl`; otherwise it nulls `category` and, when the domain parses,
sets `defaultCategory` to the capitalized domain. -/
def deleteCategoryValue (feeds : String → Option Feed)
    (x : SubscriptionFlatModel) : SubscriptionFlatModel :=
  match feeds x.feedId with
  | none => x
  | some feed =>
    match feed.siteUrl with
    | none => x
    | some siteUrl =>
      if siteUrl = "" then x
      else
        match parseDomain siteUrl with
        | none => { x with category := none }
        | some domain =>
          { x with
            category := none
            defaultCategory := some (capitalizeFirstLetter domain) }

/-- The state effect of `deleteCategory` after the remote call succeeds:
iterate the data map's keys and rewrite the entries whose id is in the
requested list. -/
def deleteCategoryLocal (feeds : String → Option Feed) (ids : List String)
    (s : SubscriptionState) : SubscriptionState :=
  { s with
    data := s.data.map (fun p =>
      if p.1 ∈ ids then (p.1, deleteCategoryValue feeds p.2) else p) }

/-- An entry of the sibling entry store, with its read flag and timestamp. -/
structure Entry where
  read : Bool
  publishedAt : Nat
deriving DecidableEq, Repr

/-- `MarkReadFilter` from the source: a start/end time range. -/
structure MarkReadFilter where
  startTime : Nat
  endTime : Nat
deriving DecidableEq, Repr

/-- Whether an entry falls inside an optional mark-read time filter. -/
def inFilter : Option MarkReadFilter → Entry → Bool
  | none, _ => true
  | some fl, e => decide (fl.startTime ≤ e.publishedAt ∧ e.publishedAt ≤ fl.endTime)

/-- The combined state the claims talk about: the subscription state plus the
sibling unread-count and entry stores. -/
structure World where
  subs : SubscriptionState
  unread : String → Nat
  entries : String → List Entry

/-- Modelled from the spec: `feedUnreadActions.updateByFeedId(feedId, 0)` of
the sibling unread store — "zero out unread counts per affected feed". -/
def setUnreadZero (feedId : String) (u : String → Nat) : String → Nat :=
  fun f => if f = feedId then 0 else u f

/-- Modelled from the spec: `entryActions.patchManyByFeedId` of the sibling
entry store, setting the read flag — "mark entries read (scoped by
filter/time-range if given)". -/
def patchEntriesRead (feedId : String) (filter : Option MarkReadFilter)
    (es : String → List Entry) : String → List Entry :=
  fun f =>
    if f = feedId then
      (es f).map (fun e => if inFilter filter e then { e with read := true } else e)
    else es f

/-- Modelled from the spec: `entryActions.clearByFeedId(feedId)` — "clears
entries ... for the feed". -/
def clearEntriesByFeedId (feedId : String) (es : String → List Entry) :
    String → List Entry :=
  fun f => if f = feedId then [] else es f

/-- Modelled from the spec: `feedUnreadActions.fetchUnreadByView(view)` —
"unread counts are instead re-fetched from the server"; the server's counts are
an explicit parameter, applied to the feeds of the given view. -/
def fetchUnreadByView (serverUnread : String → Nat) (view : FeedViewType)
    (w : World) : World :=
  { w with
    unread := fun f =>
      match dataLookup w.subs.data f with
      | some subscription =>
        if subscription.view = view then serverUnread f else w.unread f
      | none => w.unread f }

/-- Modelled from the spec: the `doMutationAndTransaction` helper from
`../utils/helper`, which is not among the provided sources.  Per the spec's
failure semantics, the local transaction runs only when the remote mutation
succeeds, unless `doTranscationWhenMutationFail` is set (the spelling is the
source's); the operations here pass it as `false` or leave the default, which
the spec's "do not apply local effects unless the remote call succeeds" fixes
as `false`. -/
def doMutationAndTransaction (remoteOk doTranscationWhenMutationFail : Bool)
    (transact : World → World) (w : World) : World :=
  match remoteOk, doTranscationWhenMutationFail with
  | true, _ => transact w
  | false, true => transact w
  | false, false => w

namespace SubscriptionActions

/-- `fetchByView`: the remote response is an explicit parameter; the feed-store
propagation writes to an environment this embedding does not carry. -/
def fetchByView (view : Option FeedViewType) (response : List SubscriptionModel)
    (w : World) : World :=
  { w with subs := fetchByViewLocal view response w.subs }

/-- `upsertMany`: the persistence write is fire-and-forget and touches no
modelled state. -/
def upsertMany (subscriptions : List SubscriptionFlatModel) (w : World) : World :=
  { w with subs := upsertManyLocal subscriptions w.subs }

/-- `markReadByView`: remote-first; on success, zero the unread count of every
feed of the view (unless a filter is given) and mark its entries read, then
re-fetch unread counts when a filter was given. -/
def markReadByView (view : FeedViewType) (filter : Option MarkReadFilter)
    (remoteOk : Bool) (serverUnread : String → Nat) (w : World) : World :=
  doMutationAndTransaction remoteOk false
    (fun w0 =>
      let w1 := w0.subs.data.foldl
        (fun acc p =>
          if p.2.view = view then
            let acc1 :=
              if filter.isNone then { acc with unread := setUnreadZero p.1 acc.unread }
              else acc
            { acc1 with entries := patchEntriesRead p.1 filter acc1.entries }
          else acc)
        w0
      if filter.isSome then fetchUnreadByView serverUnread view w1 else w1)
    w

/-- `markReadByFeedIds`: remote-first, scoped to explicit feed ids; the source
copies the id list (`concat()`) before using it, which a pure embedding renders
as using the list itself. -/
def markReadByFeedIds (feedIds : List String) (view : Option FeedViewType)
    (filter : Option MarkReadFilter) (remoteOk : Bool)
    (serverUnread : String → Nat) (w : World) : World :=
  doMutationAndTransaction remoteOk false
    (fun w0 =>
      let w1 := feedIds.foldl
        (fun acc feedId =>
          let acc1 :=
            if filter.isNone then { acc with unread := setUnreadZero feedId acc.unread }
            else acc
          { acc1 with entries := patchEntriesRead feedId filter acc1.entries })
        w0
      match filter, view with
      | some _, some v => fetchUnreadByView serverUnread v w1
      | _, _ => w1)
    w

/-- `clear`: reset the subscription store. -/
def clear (w : World) : World :=
  { w with subs := { data := [], feedIdByView := emptyDataIdByView } }

/-- `deleteCategory`: remote-first with `doTranscationWhenMutationFail: false`;
the per-id persistence upserts touch no modelled state. -/
def deleteCategory (feeds : String → Option Feed) (ids : List String)
    (remoteOk : Bool) (w : World) : World :=
  doMutationAndTransaction remoteOk false
    (fun w0 => { w0 with subs := deleteCategoryLocal feeds ids w0.subs })
    w

/-- `unfollow`: optimistic — the subscription, its entries and its unread count
are removed before the remote delete is issued, so the resulting state does not
depend on the remote outcome. -/
def unfollow (feedId : String) (remoteOk : Bool) (w : World) : World :=
  { subs := unfollowLocal feedId w.subs,
    unread := setUnreadZero feedId w.unread,
    entries := clearEntriesByFeedId feedId w.entries }

/-- `changeCategoryView`: the per-feed remote patches are awaited first
(`Promise.all`), so a failed batch leaves the local state untouched. -/
def changeCategoryView (category : String)
    (currentView changeToView : FeedViewType) (remoteOk : Bool) (w : World) :
    World :=
  if remoteOk then
    { w with subs := changeCategoryViewLocal category currentView changeToView w.subs }
  else w

/-- `renameCategory`: optimistic — the local update precedes the remote patch
and does not depend on its outcome. -/
def renameCategory (lastCategory newCategory : String) (remoteOk : Bool)
    (w : World) : World :=
  { w with subs := renameCategoryLocal lastCategory newCategory w.subs }

end SubscriptionActions

/-- The view stored for a feed id in the data map, if any. -/
def viewOf (d : DataMap) (f : String) : Option FeedViewType :=
  (dataLookup d f).map SubscriptionFlatModel.view

/-- The spec's state invariant, with "appears in exactly one bucket at a time"
read as one occurrence in total: every feed id of a view bucket has a data
entry whose stored view is that bucket's key, occurs once in that bucket, and
occurs in no other bucket. -/
def Invariant (s : SubscriptionState) : Prop :=
  ∀ v : FeedViewType, ∀ f ∈ s.feedIdByView v,
    viewOf s.data f = some v ∧ occ (s.feedIdByView v) f = 1 ∧
      ∀ u : FeedViewType, f ∈ s.feedIdByView u → u = v

instance (s : SubscriptionState) : Decidable (Invariant s) := by
  unfold Invariant; infer_instance

/-! ## Concrete inputs used by witnesses and counterexamples -/

/-- A world whose sibling stores are empty, around a given subscription state. -/
def mkWorld (s : SubscriptionState) : World :=
  { subs := s, unread := fun _ => 0, entries := fun _ => [] }

/-- A state holding one Articles subscription `f2` that a later empty fetch
response will not mention. -/
def c1StaleState : SubscriptionState :=
  { data := [("f2", { feedId := "f2", view := .Articles, category := none, defaultCategory := none })],
    feedIdByView := fun v => if v = .Articles then ["f2"] else [] }

/-- A two-subscription response with distinct feed ids and distinct views. -/
def c1Response : List SubscriptionModel :=
  [{ feedId := "a", view := .Articles, category := none, feeds := none },
   { feedId := "b", view := .Pictures, category := none, feeds := none }]

/-- The empty subscription state. -/
def emptyState : SubscriptionState :=
  { data := [], feedIdByView := emptyDataIdByView }

/-- A state whose Articles bucket holds `f1` twice (reachable by calling
`upsertMany` twice with the same subscription). -/
def c2DupState : SubscriptionState :=
  { data := [("f1", { feedId := "f1", view := .Articles, category := none, defaultCategory := none })],
    feedIdByView := fun v => if v = .Articles then ["f1", "f1"] else [] }

/-- A clean one-subscription state: `f1` once in the Articles bucket. -/
def c2CleanState : SubscriptionState :=
  { data := [("f1", { feedId := "f1", view := .Articles, category := none, defaultCategory := none })],
    feedIdByView := fun v => if v = .Articles then ["f1"] else [] }

/-- An invariant-satisfying state: `f` once in Articles. -/
def c3Base : SubscriptionState :=
  { data := [("f", { feedId := "f", view := .Articles, category := none, defaultCategory := none })],
    feedIdByView := fun v => if v = .Articles then ["f"] else [] }

/-- The subscription `f` re-fetched with a different view. -/
def c3Sub : SubscriptionFlatModel :=
  { feedId := "f", view := .Pictures, category := none, defaultCategory := none }

/-- A subscription filed under category `A`. -/
def c5Sub : SubscriptionFlatModel :=
  { feedId := "f", view := .Articles, category := some "A", defaultCategory := none }

/-- A world carrying a subscription of category `A`. -/
def c5World : World :=
  mkWorld
    { data := [("f", c5Sub)],
      feedIdByView := fun v => if v = .Articles then ["f"] else [] }

/-- A state whose Articles bucket holds the matched feed id `f` twice. -/
def c6DupState : SubscriptionState :=
  { data := [("f", { feedId := "f", view := .Articles, category := some "c", defaultCategory := none })],
    feedIdByView := fun v => if v = .Articles then ["f", "f"] else [] }

/-- An invariant-satisfying state with one matched (`f`, category `c`) and one
unmatched (`g`, category `d`) Articles subscription. -/
def c6CleanState : SubscriptionState :=
  { data := [("f", { feedId := "f", view := .Articles, category := some "c", defaultCategory := none }),
             ("g", { feedId := "g", view := .Articles, category := some "d", defaultCategory := none })],
    feedIdByView := fun v => if v = .Articles then ["f", "g"] else [] }

/-- A world with one categorised subscription whose feed the feed store lacks. -/
def c7World : World :=
  mkWorld
    { data := [("f1", { feedId := "f1", view := .Articles, category := some "X", defaultCategory := none })],
      feedIdByView := fun v => if v = .Articles then ["f1"] else [] }

/-- A feed store resolving every id to a feed whose site URL is
`https://a.example.org`. -/
def c7Feeds : String → Option Feed :=
  fun _ => some { siteUrl := some "https://a.example.org" }

/-- The spec scenario's subscription: no category, feed site URL
`https://blog.example.com`. -/
def c8Sub : SubscriptionModel :=
  { feedId := "f1", view := .Articles, category := none,
    feeds := some { siteUrl := some "https://blog.example.com" } }

/-- A world with `f` in Articles and two other Pictures subscriptions. -/
def c9World : World :=
  mkWorld
    { data := [("f", { feedId := "f", view := .Articles, category := none, defaultCategory := none }),
               ("a", { feedId := "a", view := .Pictures, category := none, defaultCategory := none }),
               ("b", { feedId := "b", view := .Pictures, category := none, defaultCategory := none })],
      feedIdByView := fun v =>
        if v = .Articles then ["f"] else if v = .Pictures then ["a", "b"] else [] }

/-- A fetched subscription without category and without a feeds record. -/
def c10Sub : SubscriptionModel :=
  { feedId := "f9", view := .Videos, category := none, feeds := none }

/-! ## Helper lemmas about lists and the data map -/

theorem occ_append (l1 l2 : List String) (f : String) :
    occ (l1 ++ l2) f = occ l1 f + occ l2 f := by
  induction l1 with
  | nil => simp [occ]
  | cons a t ih =>
    show occ (a :: (t ++ l2)) f = _
    simp only [occ, ih]
    omega

theorem occ_eq_zero_iff (l : List String) (f : String) :
    occ l f = 0 ↔ f ∉ l := by
  induction l with
  | nil => simp [occ]
  | cons a t ih =>
    by_cases h : a = f
    · subst h; simp [occ]
    · simp [occ, h, ih, Ne.symm h]

theorem mem_iff_occ_pos (l : List String) (f : String) :
    f ∈ l ↔ 0 < occ l f := by
  rw [Nat.pos_iff_ne_zero, Ne, occ_eq_zero_iff]; tauto

theorem occ_eraseFirst_self (l : List String) (f : String) :
    occ (eraseFirst l f) f = occ l f - 1 := by
  induction l with
  | nil => simp [occ, eraseFirst]
  | cons a t ih =>
    by_cases h : a = f
    · subst h; simp [eraseFirst, occ]
    · simp [eraseFirst, h, occ, ih]

theorem occ_eraseFirst_ne (l : List String) (g f : String) (h : f ≠ g) :
    occ (eraseFirst l g) f = occ l f := by
  induction l with
  | nil => simp [eraseFirst]
  | cons a t ih =>
    by_cases ha : a = g
    · subst ha; simp [eraseFirst, occ, Ne.symm h]
    · simp [eraseFirst, ha, occ, ih]

theorem mem_of_mem_eraseFirst (l : List String) (g x : String)
    (h : x ∈ eraseFirst l g) : x ∈ l := by
  induction l with
  | nil => simp [eraseFirst] at h
  | cons a t ih =>
    by_cases ha : a = g
    · subst ha; simp only [eraseFirst, if_pos rfl] at h; exact List.mem_cons_of_mem _ h
    · simp only [eraseFirst, if_neg ha, List.mem_cons] at h ⊢
      exact h.imp id ih

theorem mem_of_mem_dropLast (x : String) : ∀ l : List String, x ∈ l.dropLast → x ∈ l := by
  intro l
  induction l with
  | nil => simp
  | cons a t ih =>
    cases t with
    | nil => simp
    | cons b t2 =>
      rw [List.dropLast_cons₂]
      intro h
      rcases List.mem_cons.mp h with h | h
      · exact h ▸ List.mem_cons_self _ _
      · exact List.mem_cons_of_mem _ (ih h)

theorem occ_dropLast_le (f : String) : ∀ l : List String, occ l.dropLast f ≤ occ l f := by
  intro l
  induction l with
  | nil => simp
  | cons a t ih =>
    cases t with
    | nil => simp [occ]
    | cons b t2 =>
      rw [List.dropLast_cons₂]
      simp only [occ] at ih ⊢
      omega

theorem take_pred_length (a : String) (t : List String) :
    (a :: t).take t.length = (a :: t).dropLast := by
  induction t generalizing a with
  | nil => rfl
  | cons b t2 ih =>
    rw [List.dropLast_cons₂, show (b :: t2).length = t2.length + 1 from rfl,
      List.take_succ_cons, ih]

theorem spliceOne_neg_one (l : List String) : spliceOne l (-1) = l.dropLast := by
  cases l with
  | nil => rfl
  | cons a t =>
    show List.take (if (-1 : Int) < 0 then (((a :: t).length : Int) + -1).toNat else (-1 : Int).toNat) (a :: t)
        ++ List.drop ((if (-1 : Int) < 0 then (((a :: t).length : Int) + -1).toNat else (-1 : Int).toNat) + 1) (a :: t)
      = (a :: t).dropLast
    have h2 : (if (-1 : Int) < 0 then (((a :: t).length : Int) + -1).toNat else (-1 : Int).toNat) = t.length := by
      rw [if_pos (by omega : (-1 : Int) < 0)]
      simp only [List.length_cons]
      omega
    rw [h2, take_pred_length, show t.length + 1 = (a :: t).length from rfl,
      List.drop_length, List.append_nil]

theorem spliceOne_zero (a : String) (l : List String) : spliceOne (a :: l) 0 = l := by
  show List.take (if (0 : Int) < 0 then (((a :: l).length : Int) + 0).toNat else (0 : Int).toNat) (a :: l)
      ++ List.drop ((if (0 : Int) < 0 then (((a :: l).length : Int) + 0).toNat else (0 : Int).toNat) + 1) (a :: l)
    = l
  norm_num

theorem spliceOne_succ (a : String) (l : List String) (n : Nat) :
    spliceOne (a :: l) ((n : Int) + 1) = a :: spliceOne l (n : Int) := by
  have hs : ∀ (m : List String) (j : Int), spliceOne m j =
      List.take (if j < 0 then ((m.length : Int) + j).toNat else j.toNat) m
        ++ List.drop ((if j < 0 then ((m.length : Int) + j).toNat else j.toNat) + 1) m :=
    fun m j => rfl
  rw [hs, hs]
  have h1 : (if ((n : Int) + 1) < 0 then (((a :: l).length : Int) + ((n : Int) + 1)).toNat else ((n : Int) + 1).toNat) = n + 1 := by
    rw [if_neg (by omega : ¬ ((n : Int) + 1 < 0))]
    omega
  have h2 : (if (n : Int) < 0 then ((l.length : Int) + (n : Int)).toNat else (n : Int).toNat) = n := by
    rw [if_neg (by omega : ¬ ((n : Int) < 0))]
    omega
  rw [h1, h2, List.take_succ_cons, List.drop_succ_cons, List.cons_append]

theorem jsIndexOf_of_not_mem (l : List String) (f : String) (h : f ∉ l) :
    jsIndexOf l f = -1 := by
  induction l with
  | nil => rfl
  | cons a t ih =>
    simp only [List.mem_cons, not_or] at h
    have ht := ih h.2
    have hne : ¬ a = f := fun e => h.1 e.symm
    simp only [jsIndexOf, if_neg hne, ht]
    norm_num

theorem jsIndexOf_of_mem (l : List String) (f : String) (h : f ∈ l) :
    ∃ n : Nat, jsIndexOf l f = (n : Int) := by
  induction l with
  | nil => simp at h
  | cons a t ih =>
    by_cases ha : a = f
    · exact ⟨0, by simp [jsIndexOf, ha]⟩
    · have hft : f ∈ t := by
        rcases List.mem_cons.mp h with h | h
        · exact absurd h.symm ha
        · exact h
      obtain ⟨n, hn⟩ := ih hft
      refine ⟨n + 1, ?_⟩
      have hnn : ¬ ((n : Int) < 0) := by omega
      simp only [jsIndexOf, if_neg ha, hn, if_neg hnn]
      push_cast
      ring

theorem spliceRemove_eq (l : List String) (f : String) :
    spliceRemove l f = if f ∈ l then eraseFirst l f else l.dropLast := by
  induction l with
  | nil => simp [spliceRemove, jsIndexOf, spliceOne_neg_one]
  | cons a t ih =>
    by_cases ha : a = f
    · subst ha
      have hj : jsIndexOf (a :: t) a = 0 := by simp [jsIndexOf]
      have hmem : a ∈ a :: t := List.mem_cons_self _ _
      rw [spliceRemove, hj, spliceOne_zero, if_pos hmem]
      simp [eraseFirst]
    · by_cases hm : f ∈ t
      · obtain ⟨n, hn⟩ := jsIndexOf_of_mem t f hm
        have hnn : ¬ ((n : Int) < 0) := by omega
        have hj : jsIndexOf (a :: t) f = (n : Int) + 1 := by
          simp only [jsIndexOf, if_neg ha, hn, if_neg hnn]
        have hmem : f ∈ a :: t := List.mem_cons_of_mem _ hm
        rw [spliceRemove, hj, spliceOne_succ, if_pos hmem]
        have ht : spliceOne t (jsIndexOf t f) = eraseFirst t f := by
          have := ih
          rw [spliceRemove, if_pos hm] at this
          exact this
        rw [hn] at ht
        rw [ht]
        simp [eraseFirst, ha]
      · have hni : jsIndexOf t f = -1 := jsIndexOf_of_not_mem t f hm
        have hnm : f ∉ a :: t := by
          intro hc
          rcases List.mem_cons.mp hc with h | h
          · exact ha h.symm
          · exact hm h
        have hj : jsIndexOf (a :: t) f = -1 := by
          simp only [jsIndexOf, if_neg ha, hni]
          norm_num
        rw [spliceRemove, hj, spliceOne_neg_one, if_neg hnm]

theorem spliceRemove_of_mem (l : List String) (f : String) (h : f ∈ l) :
    spliceRemove l f = eraseFirst l f := by
  rw [spliceRemove_eq, if_pos h]

theorem spliceRemove_of_not_mem (l : List String) (f : String) (h : f ∉ l) :
    spliceRemove l f = l.dropLast := by
  rw [spliceRemove_eq, if_neg h]

theorem dataLookup_setDataEntry (d : DataMap) (k : String) (v : SubscriptionFlatModel)
    (f : String) :
    dataLookup (setDataEntry d k v) f = if f = k then some v else dataLookup d f := by
  induction d with
  | nil =>
    by_cases h : f = k
    · simp [setDataEntry, dataLookup, h]
    · have h2 : ¬ k = f := fun e => h e.symm
      simp [setDataEntry, dataLookup, h, h2]
  | cons p t ih =>
    by_cases hp : p.1 = k
    · by_cases hf : f = k
      · simp [setDataEntry, dataLookup, hp, hf]
      · have h2 : ¬ k = f := fun e => hf e.symm
        simp [setDataEntry, dataLookup, hp, hf, h2]
    · by_cases hpf : p.1 = f
      · have hfk : ¬ f = k := fun e => hp (hpf.trans e)
        simp [setDataEntry, dataLookup, hp, hpf, hfk]
      · simp [setDataEntry, dataLookup, hp, hpf, ih]

theorem dataLookup_removeKey_self (d : DataMap) (k : String) :
    dataLookup (removeKey d k) k = none := by
  induction d with
  | nil => rfl
  | cons p t ih =>
    by_cases hp : p.1 = k
    · simp [removeKey, hp, ih]
    · simp [removeKey, dataLookup, hp, ih]

theorem dataLookup_removeKey_ne (d : DataMap) (k f : String) (h : f ≠ k) :
    dataLookup (removeKey d k) f = dataLookup d f := by
  induction d with
  | nil => rfl
  | cons p t ih =>
    by_cases hp : p.1 = k
    · have h1 : ¬ p.1 = f := by rw [hp]; exact Ne.symm h
      have h2 : ¬ k = f := Ne.symm h
      simp [removeKey, dataLookup, hp, h1, h2, ih]
    · simp [removeKey, dataLookup, hp, ih]

theorem dataLookup_map_updIf (ids : List String)
    (g : SubscriptionFlatModel → SubscriptionFlatModel) (d : DataMap) (f : String) :
    dataLookup (d.map (fun p => if p.1 ∈ ids then (p.1, g p.2) else p)) f =
      if f ∈ ids then (dataLookup d f).map g else dataLookup d f := by
  induction d with
  | nil => by_cases h : f ∈ ids <;> simp [dataLookup, h]
  | cons p t ih =>
    by_cases hp : p.1 ∈ ids
    · by_cases hpf : p.1 = f
      · subst hpf
        simp [dataLookup, hp, ih]
      · simp [dataLookup, hp, hpf, ih]
    · by_cases hpf : p.1 = f
      · subst hpf
        simp [dataLookup, hp, ih]
      · simp [dataLookup, hp, hpf, ih]

theorem foldl_updAtKey_eq_map (g : SubscriptionFlatModel → SubscriptionFlatModel)
    (hg : ∀ x, g (g x) = g x) :
    ∀ (ids : List String) (d : DataMap),
      ids.foldl (fun d k => d.map (fun p => if p.1 = k then (p.1, g p.2) else p)) d =
        d.map (fun p => if p.1 ∈ ids then (p.1, g p.2) else p) := by
  intro ids
  induction ids with
  | nil => intro d; simp
  | cons i t ih =>
    intro d
    rw [List.foldl_cons, ih, List.map_map]
    refine List.map_congr_left ?_
    intro p hp
    by_cases h1 : p.1 = i
    · by_cases h2 : p.1 ∈ t <;> simp [Function.comp, h1, h2, hg, List.mem_cons]
    · by_cases h2 : p.1 ∈ t <;> simp [Function.comp, h1, h2, List.mem_cons]

theorem morphOne_feedId (m : SubscriptionModel) : (morphOne m).feedId = m.feedId := by
  unfold morphOne
  repeat' split
  all_goals rfl

theorem morphOne_view (m : SubscriptionModel) : (morphOne m).view = m.view := by
  unfold morphOne
  repeat' split
  all_goals rfl

theorem morphResponseData_feedIds (resp : List SubscriptionModel) :
    (morphResponseData resp).map SubscriptionFlatModel.feedId =
      resp.map SubscriptionModel.feedId := by
  unfold morphResponseData
  rw [List.map_map]
  exact List.map_congr_left (fun m _ => morphOne_feedId m)

theorem upsertManyLocal_bucket (subs : List SubscriptionFlatModel) :
    ∀ (s : SubscriptionState) (v : FeedViewType),
      (upsertManyLocal subs s).feedIdByView v =
        s.feedIdByView v ++
          (subs.filter (fun x => decide (x.view = v))).map SubscriptionFlatModel.feedId := by
  induction subs with
  | nil => intro s v; simp [upsertManyLocal]
  | cons x t ih =>
    intro s v
    have step : upsertManyLocal (x :: t) s = upsertManyLocal t
        { data := setDataEntry s.data x.feedId x,
          feedIdByView := updateBucket s.feedIdByView x.view
            (s.feedIdByView x.view ++ [x.feedId]) } := rfl
    rw [step, ih]
    by_cases hv : x.view = v
    · subst hv
      simp [updateBucket, List.filter_cons, List.append_assoc]
    · have hv2 : ¬ v = x.view := fun e => hv e.symm
      simp [updateBucket, hv, hv2, List.filter_cons]

theorem upsertManyLocal_data (subs : List SubscriptionFlatModel) :
    ∀ (s : SubscriptionState) (f : String),
      (subs.map SubscriptionFlatModel.feedId).Nodup →
      dataLookup (upsertManyLocal subs s).data f =
        (match subs.find? (fun x => decide (x.feedId = f)) with
         | some x => some x
         | none => dataLookup s.data f) := by
  induction subs with
  | nil => intro s f _; simp [upsertManyLocal]
  | cons x t ih =>
    intro s f hn
    rw [List.map_cons, List.nodup_cons] at hn
    have step : upsertManyLocal (x :: t) s = upsertManyLocal t
        { data := setDataEntry s.data x.feedId x,
          feedIdByView := updateBucket s.feedIdByView x.view
            (s.feedIdByView x.view ++ [x.feedId]) } := rfl
    rw [step, ih _ f hn.2]
    by_cases hf : x.feedId = f
    · subst hf
      have hfind : t.find? (fun y => decide (y.feedId = x.feedId)) = none := by
        rw [List.find?_eq_none]
        intro y hy
        simp only [decide_eq_true_eq]
        intro he
        exact hn.1 (List.mem_map.mpr ⟨y, hy, he⟩)
      rw [hfind]
      simp [dataLookup_setDataEntry, List.find?_cons]
    · have hpred : ¬ ((fun y => decide (y.feedId = f)) x = true) := by
        simp [hf]
      have hcons : List.find? (fun y => decide (y.feedId = f)) (x :: t)
          = List.find? (fun y => decide (y.feedId = f)) t :=
        List.find?_cons_of_neg t hpred
      rw [hcons]
      cases hfind : t.find? (fun y => decide (y.feedId = f)) with
      | some y => simp
      | none =>
        simp only
        rw [dataLookup_setDataEntry]
        rw [if_neg (fun e => hf e.symm)]

theorem occ_singleton (a f : String) :
    occ [a] f = if a = f then 1 else 0 := by
  simp [occ]

theorem occ_sublist_le (l1 l2 : List String) (h : l1.Sublist l2) (f : String) :
    occ l1 f ≤ occ l2 f := by
  induction h with
  | slnil => exact Nat.le_refl _
  | cons a h ih => simp only [occ]; omega
  | cons₂ a h ih => simp only [occ]; omega

theorem occ_eq_one_of_nodup (l : List String) (hn : l.Nodup) (f : String)
    (h : f ∈ l) : occ l f = 1 := by
  induction l with
  | nil => simp at h
  | cons a t ih =>
    rw [List.nodup_cons] at hn
    by_cases ha : a = f
    · subst ha
      have : occ t a = 0 := (occ_eq_zero_iff t a).mpr hn.1
      simp [occ, this]
    · have hft : f ∈ t := by
        rcases List.mem_cons.mp h with h | h
        · exact absurd h.symm ha
        · exact h
      simp [occ, ha, ih hn.2 hft]

theorem nodup_of_occ_eq_one (l : List String) (h : ∀ f ∈ l, occ l f = 1) :
    l.Nodup := by
  induction l with
  | nil => exact List.nodup_nil
  | cons a t ih =>
    rw [List.nodup_cons]
    have hat : occ t a = 0 := by
      have ha := h a (List.mem_cons_self _ _)
      simp [occ] at ha
      omega
    refine ⟨(occ_eq_zero_iff t a).mp hat, ih ?_⟩
    intro f hf
    have hne : ¬ a = f := by
      intro e; subst e
      exact ((occ_eq_zero_iff t a).mp hat) hf
    have hone := h f (List.mem_cons_of_mem _ hf)
    simp only [occ, if_neg hne] at hone
    omega

theorem filter_ne_of_occ_zero (l : List String) (f : String) (h : occ l f = 0) :
    l.filter (fun x => decide (x ≠ f)) = l := by
  have hnot := (occ_eq_zero_iff l f).mp h
  refine List.filter_eq_self.mpr ?_
  intro a ha
  simp only [decide_eq_true_eq]
  intro e
  exact hnot (e ▸ ha)

theorem eraseFirst_eq_filter (l : List String) (f : String) (h : occ l f ≤ 1) :
    eraseFirst l f = l.filter (fun x => decide (x ≠ f)) := by
  induction l with
  | nil => rfl
  | cons a t ih =>
    simp only [occ] at h
    rw [List.filter_cons]
    by_cases ha : a = f
    · rw [if_pos ha] at h
      have ht : occ t f = 0 := by omega
      have hd : ¬ (decide (a ≠ f) = true) := by simp [ha]
      rw [if_neg hd]
      subst ha
      simp only [eraseFirst, if_pos rfl]
      exact (filter_ne_of_occ_zero t a ht).symm
    · rw [if_neg ha] at h
      have hd : decide (a ≠ f) = true := by simp [ha]
      rw [if_pos hd]
      simp only [eraseFirst, if_neg ha]
      rw [ih (by omega)]

theorem occ_filter_ne (l : List String) (g f : String) (h : f ≠ g) :
    occ (l.filter (fun x => decide (x ≠ g))) f = occ l f := by
  induction l with
  | nil => rfl
  | cons a t ih =>
    rw [List.filter_cons]
    by_cases ha : a = g
    · have hd : ¬ (decide (a ≠ g) = true) := by simp [ha]
      rw [if_neg hd]
      have hna : ¬ a = f := by
        subst ha
        exact fun e => h e.symm
      simp only [occ, if_neg hna, ih]
      omega
    · have hd : decide (a ≠ g) = true := by simp [ha]
      rw [if_pos hd]
      simp only [occ, ih]

theorem foldl_append_singleton (ids : List String) :
    ∀ b : List String, ids.foldl (fun l i => l ++ [i]) b = b ++ ids := by
  induction ids with
  | nil => intro b; simp
  | cons i t ih => intro b; simp [ih, List.append_assoc]

theorem foldl_spliceRemove_occ (ids : List String) :
    ∀ b : List String, ids.Nodup → (∀ i ∈ ids, occ b i = 1) →
      ∀ f, occ (ids.foldl spliceRemove b) f = if f ∈ ids then 0 else occ b f := by
  induction ids with
  | nil => intro b _ _ f; simp
  | cons j t ih =>
    intro b hn h1 f
    rw [List.nodup_cons] at hn
    have hjb : j ∈ b := by
      rw [mem_iff_occ_pos, h1 j (List.mem_cons_self _ _)]
      omega
    rw [List.foldl_cons, spliceRemove_of_mem b j hjb]
    have hstep : ∀ g, occ (eraseFirst b j) g = if g = j then 0 else occ b g := by
      intro g
      by_cases hg : g = j
      · subst hg
        rw [occ_eraseFirst_self b g, h1 g (List.mem_cons_self _ _)]
        simp
      · rw [occ_eraseFirst_ne b j g hg, if_neg hg]
    have h1t : ∀ i ∈ t, occ (eraseFirst b j) i = 1 := by
      intro i hi
      have hij : ¬ i = j := by
        intro e; subst e; exact hn.1 hi
      rw [hstep i, if_neg hij]
      exact h1 i (List.mem_cons_of_mem _ hi)
    rw [ih (eraseFirst b j) hn.2 h1t f]
    by_cases hft : f ∈ t
    · simp [hft, List.mem_cons]
    · rw [if_neg hft, hstep f]
      by_cases hfj : f = j
      · simp [hfj]
      · simp [hfj, hft, List.mem_cons]

theorem foldl_spliceRemove_eq_filter (ids : List String) :
    ∀ b : List String, ids.Nodup → (∀ i ∈ ids, occ b i = 1) →
      ids.foldl spliceRemove b = b.filter (fun x => decide (x ∉ ids)) := by
  induction ids with
  | nil =>
    intro b _ _
    simp
  | cons j t ih =>
    intro b hn h1
    rw [List.nodup_cons] at hn
    have hjb : j ∈ b := by
      rw [mem_iff_occ_pos, h1 j (List.mem_cons_self _ _)]
      omega
    rw [List.foldl_cons, spliceRemove_of_mem b j hjb,
      eraseFirst_eq_filter b j (by rw [h1 j (List.mem_cons_self _ _)])]
    have h1t : ∀ i ∈ t, occ (b.filter (fun x => decide (x ≠ j))) i = 1 := by
      intro i hi
      have hij : i ≠ j := by
        intro e; subst e; exact hn.1 hi
      rw [occ_filter_ne b j i hij]
      exact h1 i (List.mem_cons_of_mem _ hi)
    rw [ih _ hn.2 h1t, List.filter_filter]
    refine List.filter_congr ?_
    intro x hx
    by_cases h1x : x = j <;> by_cases h2x : x ∈ t <;> simp [h1x, h2x, List.mem_cons]

theorem foldl_moveWithin_occ (ids : List String) :
    ∀ b : List String, (∀ i ∈ ids, i ∈ b) →
      ∀ f, occ (ids.foldl (fun l i => spliceRemove l i ++ [i]) b) f = occ b f := by
  induction ids with
  | nil => intro b _ f; rfl
  | cons j t ih =>
    intro b hmem f
    have hjb : j ∈ b := hmem j (List.mem_cons_self _ _)
    have hstep : ∀ g, occ (spliceRemove b j ++ [j]) g = occ b g := by
      intro g
      rw [spliceRemove_of_mem b j hjb, occ_append, occ_singleton]
      by_cases hg : g = j
      · subst hg
        rw [occ_eraseFirst_self b g]
        have := (mem_iff_occ_pos b g).mp hjb
        rw [if_pos rfl]
        omega
      · rw [occ_eraseFirst_ne b j g hg, if_neg (fun e => hg e.symm)]
        omega
    have hmemt : ∀ i ∈ t, i ∈ spliceRemove b j ++ [j] := by
      intro i hi
      rw [mem_iff_occ_pos, hstep i, ← mem_iff_occ_pos]
      exact hmem i (List.mem_cons_of_mem _ hi)
    rw [List.foldl_cons, ih _ hmemt f, hstep f]

theorem find?_eq_some_of_nodup (subs : List SubscriptionFlatModel)
    (hn : (subs.map SubscriptionFlatModel.feedId).Nodup)
    (x : SubscriptionFlatModel) (hx : x ∈ subs) (f : String) (hf : x.feedId = f) :
    subs.find? (fun y => decide (y.feedId = f)) = some x := by
  induction subs with
  | nil => simp at hx
  | cons a t ih =>
    rw [List.map_cons, List.nodup_cons] at hn
    by_cases ha : a.feedId = f
    · have : x = a := by
        rcases List.mem_cons.mp hx with h | h
        · exact h
        · exact absurd (List.mem_map.mpr ⟨x, h, hf.trans ha.symm⟩) hn.1
      subst this
      exact List.find?_cons_of_pos t (by simp [ha])
    · have hxt : x ∈ t := by
        rcases List.mem_cons.mp hx with h | h
        · exact absurd (h ▸ hf) ha
        · exact h
      rw [List.find?_cons_of_neg t (by simp [ha])]
      exact ih hn.2 hxt

theorem viewOf_map_updIf (ids : List String)
    (g : SubscriptionFlatModel → SubscriptionFlatModel)
    (hview : ∀ x, (g x).view = x.view) (d : DataMap) (f : String) :
    viewOf (d.map (fun p => if p.1 ∈ ids then (p.1, g p.2) else p)) f =
      viewOf d f := by
  unfold viewOf
  rw [dataLookup_map_updIf]
  by_cases h : f ∈ ids
  · rw [if_pos h]
    cases dataLookup d f with
    | none => rfl
    | some x => simp [hview]
  · rw [if_neg h]

theorem fold_changeViewStep_data (cv tv : FeedViewType) (ids : List String) :
    ∀ s : SubscriptionState,
      (ids.foldl (changeViewStep cv tv) s).data =
        s.data.map (fun p => if p.1 ∈ ids then (p.1, setViewTo tv p.2) else p) := by
  have hfold : ∀ (ids2 : List String) (s : SubscriptionState),
      (ids2.foldl (changeViewStep cv tv) s).data =
        ids2.foldl
          (fun d k => d.map (fun p => if p.1 = k then (p.1, setViewTo tv p.2) else p))
          s.data := by
    intro ids2
    induction ids2 with
    | nil => intro s; rfl
    | cons i t ih =>
      intro s
      rw [List.foldl_cons, List.foldl_cons, ih]
      rfl
  intro s
  rw [hfold, foldl_updAtKey_eq_map (setViewTo tv) (fun x => rfl) ids s.data]

theorem fold_changeViewStep_bucket_other (cv tv : FeedViewType) (ids : List String) :
    ∀ (s : SubscriptionState) (u : FeedViewType), u ≠ cv → u ≠ tv →
      (ids.foldl (changeViewStep cv tv) s).feedIdByView u = s.feedIdByView u := by
  induction ids with
  | nil => intro s u _ _; rfl
  | cons i t ih =>
    intro s u hcv htv
    rw [List.foldl_cons, ih _ u hcv htv]
    simp [changeViewStep, updateBucket, hcv, htv]

theorem fold_changeViewStep_bucket_from (cv tv : FeedViewType) (h : cv ≠ tv)
    (ids : List String) :
    ∀ s : SubscriptionState,
      (ids.foldl (changeViewStep cv tv) s).feedIdByView cv =
        ids.foldl spliceRemove (s.feedIdByView cv) := by
  induction ids with
  | nil => intro s; rfl
  | cons i t ih =>
    intro s
    rw [List.foldl_cons, List.foldl_cons, ih]
    congr 1
    simp [changeViewStep, updateBucket, h]

theorem fold_changeViewStep_bucket_to (cv tv : FeedViewType) (h : cv ≠ tv)
    (ids : List String) :
    ∀ s : SubscriptionState,
      (ids.foldl (changeViewStep cv tv) s).feedIdByView tv =
        s.feedIdByView tv ++ ids := by
  induction ids with
  | nil => intro s; simp
  | cons i t ih =>
    intro s
    rw [List.foldl_cons, ih]
    have hstep : (changeViewStep cv tv s i).feedIdByView tv =
        s.feedIdByView tv ++ [i] := by
      simp [changeViewStep, updateBucket, Ne.symm h]
    rw [hstep, List.append_assoc]
    rfl

theorem fold_changeViewStep_bucket_same (cv : FeedViewType) (ids : List String) :
    ∀ s : SubscriptionState,
      (ids.foldl (changeViewStep cv cv) s).feedIdByView cv =
        ids.foldl (fun l i => spliceRemove l i ++ [i]) (s.feedIdByView cv) := by
  induction ids with
  | nil => intro s; rfl
  | cons i t ih =>
    intro s
    rw [List.foldl_cons, List.foldl_cons, ih]
    congr 1
    simp [changeViewStep, updateBucket]

theorem foldl_subs_preserved {α : Type} (step : World → α → World)
    (h : ∀ w a, (step w a).subs = w.subs) :
    ∀ (l : List α) (w : World), (l.foldl step w).subs = w.subs := by
  intro l
  induction l with
  | nil => intro w; rfl
  | cons a t ih => intro w; rw [List.foldl_cons, ih, h]

theorem fetchUnreadByView_subs (su : String → Nat) (v : FeedViewType) (w : World) :
    (fetchUnreadByView su v w).subs = w.subs := rfl

theorem markReadByView_subs (v : FeedViewType) (filter : Option MarkReadFilter)
    (remoteOk : Bool) (su : String → Nat) (w : World) :
    (SubscriptionActions.markReadByView v filter remoteOk su w).subs = w.subs := by
  cases remoteOk with
  | false => rfl
  | true =>
    show (let w1 := _; if filter.isSome then fetchUnreadByView su v w1 else w1).subs = w.subs
    have hfold := foldl_subs_preserved
      (fun acc (p : String × SubscriptionFlatModel) =>
        if p.2.view = v then
          let acc1 :=
            if filter.isNone then { acc with unread := setUnreadZero p.1 acc.unread }
            else acc
          { acc1 with entries := patchEntriesRead p.1 filter acc1.entries }
        else acc)
      (by
        intro w0 p
        dsimp only
        split
        · split <;> rfl
        · rfl)
      w.subs.data w
    cases hf : filter.isSome with
    | true => simp only [if_pos hf, fetchUnreadByView_subs]; exact hfold
    | false => simp only [hf, if_neg (by simp [hf] : ¬ (false = true))]; exact hfold

theorem markReadByFeedIds_subs (feedIds : List String) (view : Option FeedViewType)
    (filter : Option MarkReadFilter) (remoteOk : Bool) (su : String → Nat) (w : World) :
    (SubscriptionActions.markReadByFeedIds feedIds view filter remoteOk su w).subs
      = w.subs := by
  cases remoteOk with
  | false => rfl
  | true =>
    have hfold := foldl_subs_preserved
      (fun acc feedId =>
        let acc1 :=
          if filter.isNone then { acc with unread := setUnreadZero feedId acc.unread }
          else acc
        { acc1 with entries := patchEntriesRead feedId filter acc1.entries })
      (by
        intro w0 f
        dsimp only
        split <;> rfl)
      feedIds w
    show (match filter, view with
      | some _, some v => fetchUnreadByView su v _
      | _, _ => _).subs = w.subs
    cases filter with
    | none => cases view <;> exact hfold
    | some fl => cases view with
      | none => exact hfold
      | some v => rw [fetchUnreadByView_subs]; exact hfold

theorem bucket_nodup_of_invariant (s : SubscriptionState) (hInv : Invariant s)
    (u : FeedViewType) : (s.feedIdByView u).Nodup :=
  nodup_of_occ_eq_one _ (fun g hg => (hInv u g hg).2.1)

theorem fold_changeViewStep_invariant (s : SubscriptionState) (hInv : Invariant s)
    (cv tv : FeedViewType) (ids : List String)
    (hid_sub : ∀ i ∈ ids, i ∈ s.feedIdByView cv)
    (hid_nodup : ids.Nodup) :
    Invariant (ids.foldl (changeViewStep cv tv) s) := by
  have hid_occ : ∀ i ∈ ids, occ (s.feedIdByView cv) i = 1 :=
    fun i hi => (hInv cv i (hid_sub i hi)).2.1
  have hid_view : ∀ i ∈ ids, viewOf s.data i = some cv :=
    fun i hi => (hInv cv i (hid_sub i hi)).1
  have hdata := fold_changeViewStep_data cv tv ids s
  have hviewOf_mem : ∀ g ∈ ids,
      viewOf (ids.foldl (changeViewStep cv tv) s).data g = some tv := by
    intro g hg
    have hlk := hid_view g hg
    unfold viewOf at hlk ⊢
    rw [hdata, dataLookup_map_updIf, if_pos hg]
    cases hl : dataLookup s.data g with
    | none => rw [hl] at hlk; simp at hlk
    | some x => simp [setViewTo]
  have hviewOf_not : ∀ g, g ∉ ids →
      viewOf (ids.foldl (changeViewStep cv tv) s).data g = viewOf s.data g := by
    intro g hg
    unfold viewOf
    rw [hdata, dataLookup_map_updIf, if_neg hg]
  by_cases hvv : cv = tv
  · subst hvv
    have hocc_same : ∀ g,
        occ ((ids.foldl (changeViewStep cv cv) s).feedIdByView cv) g =
          occ (s.feedIdByView cv) g := by
      intro g
      rw [fold_changeViewStep_bucket_same cv ids s]
      exact foldl_moveWithin_occ ids _ hid_sub g
    have hother : ∀ u, u ≠ cv →
        (ids.foldl (changeViewStep cv cv) s).feedIdByView u = s.feedIdByView u :=
      fun u hu => fold_changeViewStep_bucket_other cv cv ids s u hu hu
    have hmem_eq : ∀ u g,
        g ∈ (ids.foldl (changeViewStep cv cv) s).feedIdByView u ↔
          g ∈ s.feedIdByView u := by
      intro u g
      by_cases hu : u = cv
      · subst hu
        rw [mem_iff_occ_pos, mem_iff_occ_pos, hocc_same]
      · rw [hother u hu]
    intro v f hf
    have hf_old : f ∈ s.feedIdByView v := (hmem_eq v f).mp hf
    have hInv_old := hInv v f hf_old
    refine ⟨?_, ?_, ?_⟩
    · by_cases hfi : f ∈ ids
      · have hvcv : cv = v := hInv_old.2.2 cv (hid_sub f hfi)
        rw [hviewOf_mem f hfi, hvcv]
      · rw [hviewOf_not f hfi]
        exact hInv_old.1
    · by_cases hu : v = cv
      · subst hu
        rw [hocc_same]
        exact hInv_old.2.1
      · rw [hother v hu]
        exact hInv_old.2.1
    · intro u hu
      exact hInv_old.2.2 u ((hmem_eq u f).mp hu)
  · have hbcv := fold_changeViewStep_bucket_from cv tv hvv ids s
    have hbtv := fold_changeViewStep_bucket_to cv tv hvv ids s
    have hbother : ∀ u, u ≠ cv → u ≠ tv →
        (ids.foldl (changeViewStep cv tv) s).feedIdByView u = s.feedIdByView u :=
      fun u h1 h2 => fold_changeViewStep_bucket_other cv tv ids s u h1 h2
    have hocc_cv : ∀ g, occ ((ids.foldl (changeViewStep cv tv) s).feedIdByView cv) g =
        if g ∈ ids then 0 else occ (s.feedIdByView cv) g := by
      intro g
      rw [hbcv]
      exact foldl_spliceRemove_occ ids _ hid_nodup hid_occ g
    have hocc_tv : ∀ g, occ ((ids.foldl (changeViewStep cv tv) s).feedIdByView tv) g =
        occ (s.feedIdByView tv) g + occ ids g := by
      intro g
      rw [hbtv]
      exact occ_append _ _ _
    have hid_notin : ∀ i ∈ ids, ∀ u, u ≠ cv → i ∉ s.feedIdByView u := by
      intro i hi u hu hmem
      exact hu ((hInv cv i (hid_sub i hi)).2.2 u hmem)
    have hmemNew : ∀ u g, g ∈ (ids.foldl (changeViewStep cv tv) s).feedIdByView u →
        ((g ∈ ids ∧ u = tv) ∨ (g ∉ ids ∧ g ∈ s.feedIdByView u)) := by
      intro u g hg
      by_cases hu1 : u = cv
      · subst hu1
        rw [mem_iff_occ_pos, hocc_cv] at hg
        by_cases hgi : g ∈ ids
        · rw [if_pos hgi] at hg
          omega
        · right
          rw [if_neg hgi] at hg
          exact ⟨hgi, (mem_iff_occ_pos _ _).mpr hg⟩
      · by_cases hu2 : u = tv
        · subst hu2
          rw [mem_iff_occ_pos, hocc_tv] at hg
          by_cases hgi : g ∈ ids
          · exact Or.inl ⟨hgi, rfl⟩
          · right
            have h0 : occ ids g = 0 := (occ_eq_zero_iff ids g).mpr hgi
            rw [h0] at hg
            exact ⟨hgi, (mem_iff_occ_pos _ _).mpr (by omega)⟩
        · rw [hbother u hu1 hu2] at hg
          right
          refine ⟨?_, hg⟩
          intro hgi
          exact hu1 ((hInv cv g (hid_sub g hgi)).2.2 u hg)
    intro v f hf
    rcases hmemNew v f hf with ⟨hfi, hveq⟩ | ⟨hfi, hfold_mem⟩
    · have hveq2 : tv = v := hveq.symm
      subst hveq2
      refine ⟨hviewOf_mem f hfi, ?_, ?_⟩
      · rw [hocc_tv]
        have h1 : occ ids f = 1 := occ_eq_one_of_nodup ids hid_nodup f hfi
        have h0 : occ (s.feedIdByView tv) f = 0 := by
          rw [occ_eq_zero_iff]
          exact hid_notin f hfi tv (Ne.symm hvv)
        omega
      · intro u hu
        rcases hmemNew u f hu with ⟨_, hueq⟩ | ⟨hni, _⟩
        · exact hueq
        · exact absurd hfi hni
    · have hInv_old := hInv v f hfold_mem
      refine ⟨?_, ?_, ?_⟩
      · rw [hviewOf_not f hfi]
        exact hInv_old.1
      · by_cases hv1 : v = cv
        · subst hv1
          rw [hocc_cv, if_neg hfi]
          exact hInv_old.2.1
        · by_cases hv2 : v = tv
          · subst hv2
            rw [hocc_tv]
            have h0 : occ ids f = 0 := (occ_eq_zero_iff ids f).mpr hfi
            rw [h0, hInv_old.2.1]
          · rw [hbother v hv1 hv2]
            exact hInv_old.2.1
      · intro u hu
        rcases hmemNew u f hu with ⟨hfi2, _⟩ | ⟨_, hm⟩
        · exact absurd hfi2 hfi
        · exact hInv_old.2.2 u hm

theorem changeCategoryViewLocal_invariant (s : SubscriptionState)
    (hInv : Invariant s) (cat : String) (cv tv : FeedViewType) :
    Invariant (changeCategoryViewLocal cat cv tv s) :=
  fold_changeViewStep_invariant s hInv cv tv (matchedIds s cat cv)
    (fun i hi => (List.mem_filter.mp hi).1)
    (List.Nodup.filter _ (bucket_nodup_of_invariant s hInv cv))

theorem sub_eq_of_nodup_feedIds (subs : List SubscriptionFlatModel)
    (hn : (subs.map SubscriptionFlatModel.feedId).Nodup)
    (x y : SubscriptionFlatModel) (hx : x ∈ subs) (hy : y ∈ subs)
    (hxy : x.feedId = y.feedId) : x = y := by
  have h1 := find?_eq_some_of_nodup subs hn x hx x.feedId rfl
  have h2 := find?_eq_some_of_nodup subs hn y hy x.feedId hxy.symm
  rw [h1] at h2
  exact Option.some.inj h2

theorem upsertManyLocal_invariant (s : SubscriptionState) (hInv : Invariant s)
    (subs : List SubscriptionFlatModel)
    (hn : (subs.map SubscriptionFlatModel.feedId).Nodup)
    (hfresh : ∀ x ∈ subs, ∀ u : FeedViewType, x.feedId ∉ s.feedIdByView u) :
    Invariant (upsertManyLocal subs s) := by
  have hbucket := upsertManyLocal_bucket subs s
  have hdata := fun g => upsertManyLocal_data subs s g hn
  have hnew_nodup : ∀ u : FeedViewType,
      ((subs.filter (fun x => decide (x.view = u))).map SubscriptionFlatModel.feedId).Nodup := by
    intro u
    exact List.Nodup.sublist (List.Sublist.map _ (List.filter_sublist subs)) hn
  have hnew_mem : ∀ (u : FeedViewType) (g : String),
      g ∈ (subs.filter (fun x => decide (x.view = u))).map SubscriptionFlatModel.feedId →
        ∃ x ∈ subs, x.view = u ∧ x.feedId = g := by
    intro u g hg
    obtain ⟨x, hx, he⟩ := List.mem_map.mp hg
    obtain ⟨hxs, hxv⟩ := List.mem_filter.mp hx
    exact ⟨x, hxs, by simpa using hxv, he⟩
  intro v f hf
  rw [hbucket v] at hf
  rcases List.mem_append.mp hf with hold | hnew
  · have hfind : subs.find? (fun y => decide (y.feedId = f)) = none := by
      rw [List.find?_eq_none]
      intro x hx
      simp only [decide_eq_true_eq]
      intro he
      exact hfresh x hx v (he ▸ hold)
    have hInv_old := hInv v f hold
    refine ⟨?_, ?_, ?_⟩
    · unfold viewOf
      rw [hdata f, hfind]
      exact hInv_old.1
    · rw [hbucket v, occ_append]
      have h0 : occ ((subs.filter (fun x => decide (x.view = v))).map
          SubscriptionFlatModel.feedId) f = 0 := by
        rw [occ_eq_zero_iff]
        intro hc
        obtain ⟨x, hxs, _, hfid⟩ := hnew_mem v f hc
        exact hfresh x hxs v (hfid ▸ hold)
      rw [h0, hInv_old.2.1]
    · intro u hu
      rw [hbucket u] at hu
      rcases List.mem_append.mp hu with hu1 | hu2
      · exact hInv_old.2.2 u hu1
      · obtain ⟨x, hxs, _, hfid⟩ := hnew_mem u f hu2
        exact absurd (hfid ▸ hold) (hfresh x hxs v)
  · obtain ⟨x, hxs, hxv, hfid⟩ := hnew_mem v f hnew
    have hfind : subs.find? (fun y => decide (y.feedId = f)) = some x :=
      find?_eq_some_of_nodup subs hn x hxs f hfid
    refine ⟨?_, ?_, ?_⟩
    · unfold viewOf
      rw [hdata f, hfind]
      simp [hxv]
    · rw [hbucket v, occ_append]
      have h0 : occ (s.feedIdByView v) f = 0 := by
        rw [occ_eq_zero_iff]
        exact hfid ▸ hfresh x hxs v
      have h1 : occ ((subs.filter (fun y => decide (y.view = v))).map
          SubscriptionFlatModel.feedId) f = 1 :=
        occ_eq_one_of_nodup _ (hnew_nodup v) f hnew
      omega
    · intro u hu
      rw [hbucket u] at hu
      rcases List.mem_append.mp hu with hu1 | hu2
      · exact absurd (hfid ▸ hu1) (hfresh x hxs u)
      · obtain ⟨y, hys, hyv, hyfid⟩ := hnew_mem u f hu2
        have : y = x := sub_eq_of_nodup_feedIds subs hn y x hys hxs (by rw [hyfid, hfid])
        rw [← hyv, this, hxv]

theorem unfollowLocal_invariant (s : SubscriptionState) (hInv : Invariant s)
    (feedId : String) : Invariant (unfollowLocal feedId s) := by
  have hsub : ∀ (u : FeedViewType) (g : String),
      g ∈ (unfollowLocal feedId s).feedIdByView u → g ∈ s.feedIdByView u := by
    intro u g hg
    have : g ∈ spliceRemove (s.feedIdByView u) feedId := hg
    rw [spliceRemove_eq] at this
    by_cases hm : feedId ∈ s.feedIdByView u
    · rw [if_pos hm] at this
      exact mem_of_mem_eraseFirst _ _ _ this
    · rw [if_neg hm] at this
      exact mem_of_mem_dropLast _ _ this
  have hne : ∀ u : FeedViewType, feedId ∉ (unfollowLocal feedId s).feedIdByView u := by
    intro u
    show feedId ∉ spliceRemove (s.feedIdByView u) feedId
    by_cases hm : feedId ∈ s.feedIdByView u
    · rw [spliceRemove_of_mem _ _ hm, mem_iff_occ_pos, occ_eraseFirst_self,
        (hInv u feedId hm).2.1]
      omega
    · rw [spliceRemove_of_not_mem _ _ hm]
      intro hc
      exact hm (mem_of_mem_dropLast _ _ hc)
  intro v f hf
  have hf_old : f ∈ s.feedIdByView v := hsub v f hf
  have hffid : ¬ f = feedId := fun e => hne v (e ▸ hf)
  have hInv_old := hInv v f hf_old
  refine ⟨?_, ?_, ?_⟩
  · show viewOf (removeKey s.data feedId) f = some v
    unfold viewOf
    rw [dataLookup_removeKey_ne s.data feedId f hffid]
    exact hInv_old.1
  · have hle : occ ((unfollowLocal feedId s).feedIdByView v) f ≤
        occ (s.feedIdByView v) f := by
      show occ (spliceRemove (s.feedIdByView v) feedId) f ≤ _
      rw [spliceRemove_eq]
      by_cases hm : feedId ∈ s.feedIdByView v
      · rw [if_pos hm, occ_eraseFirst_ne _ _ _ hffid]
      · rw [if_neg hm]
        exact occ_dropLast_le f _
    have hpos : 0 < occ ((unfollowLocal feedId s).feedIdByView v) f :=
      (mem_iff_occ_pos _ _).mp hf
    have h1 := hInv_old.2.1
    omega
  · intro u hu
    exact hInv_old.2.2 u (hsub u f hu)

theorem deleteCategoryValue_view (feeds : String → Option Feed)
    (x : SubscriptionFlatModel) : (deleteCategoryValue feeds x).view = x.view := by
  unfold deleteCategoryValue
  repeat' split
  all_goals rfl

theorem deleteCategoryLocal_invariant (feeds : String → Option Feed)
    (ids : List String) (s : SubscriptionState) (hInv : Invariant s) :
    Invariant (deleteCategoryLocal feeds ids s) := by
  intro v f hf
  have hInv_old := hInv v f hf
  refine ⟨?_, hInv_old.2.1, hInv_old.2.2⟩
  show viewOf (s.data.map (fun p =>
    if p.1 ∈ ids then (p.1, deleteCategoryValue feeds p.2) else p)) f = some v
  rw [viewOf_map_updIf ids _ (deleteCategoryValue_view feeds) s.data f]
  exact hInv_old.1

theorem renameCategoryLocal_data (lastCategory newCategory : String)
    (s : SubscriptionState) :
    (renameCategoryLocal lastCategory newCategory s).data =
      s.data.map (fun p =>
        if p.1 ∈ (s.data.filter (fun q =>
            decide (q.2.category = some lastCategory) ||
              decide (q.2.defaultCategory = some lastCategory))).map Prod.fst
        then (p.1, renameTo newCategory p.2) else p) :=
  foldl_updAtKey_eq_map (renameTo newCategory) (fun x => rfl) _ s.data

theorem renameCategoryLocal_invariant (lastCategory newCategory : String)
    (s : SubscriptionState) (hInv : Invariant s) :
    Invariant (renameCategoryLocal lastCategory newCategory s) := by
  intro v f hf
  have hInv_old := hInv v f hf
  refine ⟨?_, hInv_old.2.1, hInv_old.2.2⟩
  have hd := renameCategoryLocal_data lastCategory newCategory s
  show viewOf (renameCategoryLocal lastCategory newCategory s).data f = some v
  rw [hd, viewOf_map_updIf _ (renameTo newCategory) (fun x => rfl) s.data f]
  exact hInv_old.1

theorem clear_invariant (w : World) : Invariant (SubscriptionActions.clear w).subs := by
  intro v f hf
  exact absurd hf (List.not_mem_nil f)

theorem fetchByViewLocal_none_invariant (s : SubscriptionState)
    (resp : List SubscriptionModel)
    (hn : (resp.map SubscriptionModel.feedId).Nodup) :
    Invariant (fetchByViewLocal none resp s) := by
  have hm : ((morphResponseData resp).map SubscriptionFlatModel.feedId).Nodup := by
    rw [morphResponseData_feedIds]
    exact hn
  refine upsertManyLocal_invariant _ ?_ _ hm ?_
  · intro v f hf
    exact absurd hf (List.not_mem_nil f)
  · intro x hx u
    exact List.not_mem_nil _

theorem fetchByViewLocal_some_invariant (s : SubscriptionState) (hInv : Invariant s)
    (v : FeedViewType) (resp : List SubscriptionModel)
    (hn : (resp.map SubscriptionModel.feedId).Nodup)
    (hview : ∀ m ∈ resp, m.view = v)
    (hfresh : ∀ m ∈ resp, ∀ u : FeedViewType, u ≠ v → m.feedId ∉ s.feedIdByView u) :
    Invariant (fetchByViewLocal (some v) resp s) := by
  have hm : ((morphResponseData resp).map SubscriptionFlatModel.feedId).Nodup := by
    rw [morphResponseData_feedIds]
    exact hn
  refine upsertManyLocal_invariant _ ?_ _ hm ?_
  · intro u f hf
    have hbu : ({ s with feedIdByView := updateBucket s.feedIdByView v [] } :
        SubscriptionState).feedIdByView u = if u = v then [] else s.feedIdByView u := rfl
    rw [hbu] at hf
    by_cases hu : u = v
    · rw [if_pos hu] at hf
      exact absurd hf (List.not_mem_nil f)
    · rw [if_neg hu] at hf
      have hInv_old := hInv u f hf
      refine ⟨hInv_old.1, ?_, ?_⟩
      · rw [hbu, if_neg hu]
        exact hInv_old.2.1
      · intro u2 hu2
        have hbu2 : ({ s with feedIdByView := updateBucket s.feedIdByView v [] } :
            SubscriptionState).feedIdByView u2 =
              if u2 = v then [] else s.feedIdByView u2 := rfl
        rw [hbu2] at hu2
        by_cases hu2v : u2 = v
        · rw [if_pos hu2v] at hu2
          exact absurd hu2 (List.not_mem_nil f)
        · rw [if_neg hu2v] at hu2
          exact hInv_old.2.2 u2 hu2
  · intro x hx u
    obtain ⟨m, hmr, hme⟩ := List.mem_map.mp hx
    have hbu : ({ s with feedIdByView := updateBucket s.feedIdByView v [] } :
        SubscriptionState).feedIdByView u = if u = v then [] else s.feedIdByView u := rfl
    rw [hbu]
    by_cases hu : u = v
    · rw [if_pos hu]
      exact List.not_mem_nil _
    · rw [if_neg hu]
      rw [← hme, morphOne_feedId]
      exact hfresh m hmr u hu

/-! ## Claims -/

/-- C4: if the remote call issued by `markReadByView`, `markReadByFeedIds` or
`deleteCategory` fails, no local effect is applied — the subscription state,
unread counts and entry store are exactly as before the call. -/
theorem C4_remote_failure_applies_no_local_effect :
    (∀ (view : FeedViewType) (filter : Option MarkReadFilter) (su : String → Nat)
        (w : World),
      SubscriptionActions.markReadByView view filter false su w = w) ∧
    (∀ (feedIds : List String) (view : Option FeedViewType)
        (filter : Option MarkReadFilter) (su : String → Nat) (w : World),
      SubscriptionActions.markReadByFeedIds feedIds view filter false su w = w) ∧
    (∀ (feeds : String → Option Feed) (ids : List String) (w : World),
      SubscriptionActions.deleteCategory feeds ids false w = w) :=
  ⟨fun _ _ _ _ => rfl, fun _ _ _ _ _ => rfl, fun _ _ _ => rfl⟩

/-- C9: `unfollow(feedId)` removes the last element of every view bucket that
does not contain `feedId` (the `splice(indexOf, 1)` with an `indexOf` of `-1`
deletes the last element), so feed ids other than the unfollowed one are not
preserved in such buckets. -/
theorem C9_unfollow_drops_last_of_other_buckets (w : World) (feedId : String)
    (remoteOk : Bool) (v : FeedViewType)
    (h : feedId ∉ w.subs.feedIdByView v) :
    (SubscriptionActions.unfollow feedId remoteOk w).subs.feedIdByView v =
      (w.subs.feedIdByView v).dropLast := by
  show spliceRemove (w.subs.feedIdByView v) feedId = _
  exact spliceRemove_of_not_mem _ _ h

theorem C9_witness :
    ("f" ∉ c9World.subs.feedIdByView FeedViewType.Pictures) ∧
    (SubscriptionActions.unfollow "f" false c9World).subs.feedIdByView
        FeedViewType.Pictures =
      (c9World.subs.feedIdByView FeedViewType.Pictures).dropLast :=
  ⟨by decide,
    C9_unfollow_drops_last_of_other_buckets c9World "f" false FeedViewType.Pictures
      (by decide)⟩

/-- C10: a fetched subscription with no (truthy) category and no feeds record
is stored with `defaultCategory` undefined: the feed-id fallback applies only
when a feeds record is present. -/
theorem C10_no_feeds_no_defaultCategory (m : SubscriptionModel)
    (hcat : falsyStr m.category = true) (hfeeds : m.feeds = none) :
    (morphOne m).defaultCategory = none ∧
    ∀ s : SubscriptionState,
      dataLookup (fetchByViewLocal none [m] s).data m.feedId = some (morphOne m) := by
  constructor
  · unfold morphOne
    rw [if_pos hcat, hfeeds]
  · intro s
    have hn : (([morphOne m]).map SubscriptionFlatModel.feedId).Nodup := by simp
    have hd := upsertManyLocal_data [morphOne m]
      { s with feedIdByView := emptyDataIdByView } m.feedId hn
    have hfind : ([morphOne m]).find? (fun y => decide (y.feedId = m.feedId)) =
        some (morphOne m) :=
      List.find?_cons_of_pos _ (by simp [morphOne_feedId])
    show dataLookup (upsertManyLocal [morphOne m]
      { s with feedIdByView := emptyDataIdByView }).data m.feedId = some (morphOne m)
    rw [hd, hfind]

theorem C10_witness :
    falsyStr c10Sub.category = true ∧ c10Sub.feeds = none ∧
    (morphOne c10Sub).defaultCategory = none :=
  ⟨by decide, rfl, (C10_no_feeds_no_defaultCategory c10Sub (by decide) rfl).1⟩

/-- C8, counterexample to the claim's scenario: for the subscription with no
category and feed site URL `https://blog.example.com`, the stored
`defaultCategory` is the capitalized registrable domain `"Example.com"`, not
`"Example"` — the source capitalizes `parsed.domain`, which keeps the public
suffix. -/
theorem C8_counterexample :
    (morphOne c8Sub).defaultCategory = some "Example.com" ∧
    ¬ (morphOne c8Sub).defaultCategory = some "Example" := by
  constructor
  · rfl
  · decide

/-- C8 (amended): for a fetched subscription with no (truthy) category and a
feeds record, `defaultCategory` is the capitalized registrable domain of the
site URL when one parses, and falls back to the feed id when the site URL is
absent, empty or unparseable; in the spec's scenario the stored value is
`"Example.com"` (the capitalization of the registrable domain `example.com`),
and the morphed subscription is what `fetchByView` stores. -/
theorem C8_defaultCategory_from_domain (m : SubscriptionModel) (feed : Feed)
    (hfeeds : m.feeds = some feed) (hcat : falsyStr m.category = true) :
    (feed.siteUrl = none → (morphOne m).defaultCategory = some m.feedId) ∧
    (feed.siteUrl = some "" → (morphOne m).defaultCategory = some m.feedId) ∧
    (∀ u, feed.siteUrl = some u → u ≠ "" → parseDomain u = none →
      (morphOne m).defaultCategory = some m.feedId) ∧
    (∀ u d, feed.siteUrl = some u → u ≠ "" → parseDomain u = some d →
      (morphOne m).defaultCategory = some (capitalizeFirstLetter d)) ∧
    parseDomain "https://blog.example.com" = some "example.com" ∧
    capitalizeFirstLetter "example.com" = "Example.com" ∧
    (∀ s : SubscriptionState,
      dataLookup (fetchByViewLocal none [m] s).data m.feedId = some (morphOne m)) := by
  refine ⟨?_, ?_, ?_, ?_, rfl, rfl, ?_⟩
  · intro hurl
    simp [morphOne, hcat, hfeeds, hurl]
  · intro hurl
    simp [morphOne, hcat, hfeeds, hurl]
  · intro u hurl hne hdom
    simp [morphOne, hcat, hfeeds, hurl, hne, hdom]
  · intro u d hurl hne hdom
    simp [morphOne, hcat, hfeeds, hurl, hne, hdom]
  · intro s
    have hn : (([morphOne m]).map SubscriptionFlatModel.feedId).Nodup := by simp
    have hd := upsertManyLocal_data [morphOne m]
      { s with feedIdByView := emptyDataIdByView } m.feedId hn
    have hfind : ([morphOne m]).find? (fun y => decide (y.feedId = m.feedId)) =
        some (morphOne m) :=
      List.find?_cons_of_pos _ (by simp [morphOne_feedId])
    show dataLookup (upsertManyLocal [morphOne m]
      { s with feedIdByView := emptyDataIdByView }).data m.feedId = some (morphOne m)
    rw [hd, hfind]

theorem C8_witness :
    c8Sub.feeds = some { siteUrl := some "https://blog.example.com" } ∧
    falsyStr c8Sub.category = true ∧
    (morphOne c8Sub).defaultCategory = some (capitalizeFirstLetter "example.com") :=
  ⟨rfl, by decide,
    (C8_defaultCategory_from_domain c8Sub { siteUrl := some "https://blog.example.com" }
        rfl (by decide)).2.2.2.1 "https://blog.example.com" "example.com" rfl
      (by decide) rfl⟩

/-- C2, counterexample: when a bucket holds the feed id twice (reachable by
two `upsertMany` calls with the same subscription), `unfollow` splices out only
the first occurrence, so the bucket still contains the feed id. -/
theorem C2_counterexample :
    "f1" ∈ (SubscriptionActions.unfollow "f1" false
      (mkWorld c2DupState)).subs.feedIdByView FeedViewType.Articles := by
  decide

/-- C2 (amended): provided no view bucket holds `feedId` more than once,
`unfollow(feedId)` leaves no data entry and no bucket occurrence of `feedId`,
whatever bucket it was in and whatever the remote outcome. -/
theorem C2_unfollow_removes_everywhere (w : World) (feedId : String)
    (remoteOk : Bool)
    (h : ∀ v : FeedViewType, occ (w.subs.feedIdByView v) feedId ≤ 1) :
    dataLookup (SubscriptionActions.unfollow feedId remoteOk w).subs.data feedId
        = none ∧
    ∀ v : FeedViewType,
      feedId ∉ (SubscriptionActions.unfollow feedId remoteOk w).subs.feedIdByView v := by
  constructor
  · show dataLookup (removeKey w.subs.data feedId) feedId = none
    exact dataLookup_removeKey_self _ _
  · intro v
    show feedId ∉ spliceRemove (w.subs.feedIdByView v) feedId
    by_cases hm : feedId ∈ w.subs.feedIdByView v
    · rw [spliceRemove_of_mem _ _ hm, mem_iff_occ_pos, occ_eraseFirst_self]
      have h1 := h v
      have h2 := (mem_iff_occ_pos _ _).mp hm
      omega
    · rw [spliceRemove_of_not_mem _ _ hm]
      intro hc
      exact hm (mem_of_mem_dropLast _ _ hc)

theorem C2_witness :
    (∀ v : FeedViewType, occ ((mkWorld c2CleanState).subs.feedIdByView v) "f1" ≤ 1) ∧
    (dataLookup (SubscriptionActions.unfollow "f1" false
        (mkWorld c2CleanState)).subs.data "f1" = none ∧
      ∀ v : FeedViewType,
        "f1" ∉ (SubscriptionActions.unfollow "f1" false
          (mkWorld c2CleanState)).subs.feedIdByView v) :=
  ⟨by decide, C2_unfollow_removes_everywhere (mkWorld c2CleanState) "f1" false (by decide)⟩

/-- C5: `renameCategory(A,B)` rewrites every subscription whose `category` or
`defaultCategory` equals `A` to have `category = B` and `defaultCategory`
undefined, and the local update does not depend on the remote outcome — it is
applied before remote confirmation. -/
theorem C5_renameCategory_rewrites_matches (w : World) (a b : String)
    (remoteOk : Bool) (p : String × SubscriptionFlatModel) (hp : p ∈ w.subs.data)
    (hmatch : p.2.category = some a ∨ p.2.defaultCategory = some a) :
    (p.1, { p.2 with category := some b, defaultCategory := none }) ∈
      (SubscriptionActions.renameCategory a b remoteOk w).subs.data := by
  have hd := renameCategoryLocal_data a b w.subs
  show (p.1, renameTo b p.2) ∈ (renameCategoryLocal a b w.subs).data
  rw [hd]
  refine List.mem_map.mpr ⟨p, hp, ?_⟩
  have hin : p.1 ∈ (w.subs.data.filter (fun q =>
      decide (q.2.category = some a) || decide (q.2.defaultCategory = some a))).map
        Prod.fst := by
    refine List.mem_map.mpr ⟨p, ?_, rfl⟩
    refine List.mem_filter.mpr ⟨hp, ?_⟩
    rcases hmatch with h | h <;> simp [h]
  rw [if_pos hin]

theorem C5_witness :
    (("f", c5Sub) ∈ c5World.subs.data) ∧
    (c5Sub.category = some "A" ∨ c5Sub.defaultCategory = some "A") ∧
    ("f", { c5Sub with category := some "B", defaultCategory := none }) ∈
      (SubscriptionActions.renameCategory "A" "B" false c5World).subs.data :=
  ⟨by decide, Or.inl rfl,
    C5_renameCategory_rewrites_matches c5World "A" "B" false ("f", c5Sub)
      (by decide) (Or.inl rfl)⟩

/-- C7, counterexample: `deleteCategory` bails out per subscription when the
feed store has no record for the feed, so even after remote success the
category is not cleared. -/
theorem C7_counterexample :
    dataLookup (SubscriptionActions.deleteCategory (fun _ => none) ["f1"] true
        c7World).subs.data "f1" =
      some { feedId := "f1", view := FeedViewType.Articles, category := some "X",
             defaultCategory := none } := by
  decide

/-- C7 (amended): after `deleteCategory(ids)` succeeds remotely, a subscription
whose id is in `ids` has its category cleared only when its feed is present in
the feed store with a non-empty site URL; in that case, when the site URL's
domain parses, `defaultCategory` becomes the capitalized domain, and otherwise
`defaultCategory` is left unchanged; subscriptions whose feed is missing or has
no truthy site URL are left untouched. -/
theorem C7_deleteCategory_clears_guarded (feeds : String → Option Feed)
    (ids : List String) (w : World) (p : String × SubscriptionFlatModel)
    (hp : p ∈ w.subs.data) (hid : p.1 ∈ ids) :
    (feeds p.2.feedId = none →
      p ∈ (SubscriptionActions.deleteCategory feeds ids true w).subs.data) ∧
    (∀ feed, feeds p.2.feedId = some feed → feed.siteUrl = none →
      p ∈ (SubscriptionActions.deleteCategory feeds ids true w).subs.data) ∧
    (∀ feed, feeds p.2.feedId = some feed → feed.siteUrl = some "" →
      p ∈ (SubscriptionActions.deleteCategory feeds ids true w).subs.data) ∧
    (∀ feed u, feeds p.2.feedId = some feed → feed.siteUrl = some u → u ≠ "" →
      parseDomain u = none →
      (p.1, { p.2 with category := none }) ∈
        (SubscriptionActions.deleteCategory feeds ids true w).subs.data) ∧
    (∀ feed u d, feeds p.2.feedId = some feed → feed.siteUrl = some u → u ≠ "" →
      parseDomain u = some d →
      (p.1, { p.2 with category := none,
                       defaultCategory := some (capitalizeFirstLetter d) }) ∈
        (SubscriptionActions.deleteCategory feeds ids true w).subs.data) := by
  have hbase : (p.1, deleteCategoryValue feeds p.2) ∈
      (SubscriptionActions.deleteCategory feeds ids true w).subs.data := by
    show (p.1, deleteCategoryValue feeds p.2) ∈ (deleteCategoryLocal feeds ids w.subs).data
    refine List.mem_map.mpr ⟨p, hp, ?_⟩
    rw [if_pos hid]
  refine ⟨?_, ?_, ?_, ?_, ?_⟩
  · intro h
    have hv : deleteCategoryValue feeds p.2 = p.2 := by
      unfold deleteCategoryValue
      rw [h]
    rw [hv] at hbase
    exact hbase
  · intro feed hfd hurl
    have hv : deleteCategoryValue feeds p.2 = p.2 := by
      simp [deleteCategoryValue, hfd, hurl]
    rw [hv] at hbase
    exact hbase
  · intro feed hfd hurl
    have hv : deleteCategoryValue feeds p.2 = p.2 := by
      simp [deleteCategoryValue, hfd, hurl]
    rw [hv] at hbase
    exact hbase
  · intro feed u hfd hurl hne hdom
    have hv : deleteCategoryValue feeds p.2 = { p.2 with category := none } := by
      simp [deleteCategoryValue, hfd, hurl, hne, hdom]
    rw [hv] at hbase
    exact hbase
  · intro feed u d hfd hurl hne hdom
    have hv : deleteCategoryValue feeds p.2 =
        { p.2 with category := none,
                   defaultCategory := some (capitalizeFirstLetter d) } := by
      simp [deleteCategoryValue, hfd, hurl, hne, hdom]
    rw [hv] at hbase
    exact hbase

theorem C7_witness :
    (("f1", { feedId := "f1", view := FeedViewType.Articles, category := some "X",
              defaultCategory := none }) ∈ c7World.subs.data) ∧
    ("f1" ∈ ["f1"]) ∧
    c7Feeds "f1" = some { siteUrl := some "https://a.example.org" } ∧
    parseDomain "https://a.example.org" = some "example.org" ∧
    ("f1", { feedId := "f1", view := FeedViewType.Articles, category := none,
             defaultCategory := some (capitalizeFirstLetter "example.org") }) ∈
      (SubscriptionActions.deleteCategory c7Feeds ["f1"] true c7World).subs.data :=
  ⟨by decide, by decide, rfl, rfl,
    (C7_deleteCategory_clears_guarded c7Feeds ["f1"] c7World
        ("f1", { feedId := "f1", view := FeedViewType.Articles, category := some "X",
                 defaultCategory := none })
        (by decide) (by decide)).2.2.2.2
      { siteUrl := some "https://a.example.org" } "https://a.example.org" "example.org"
      rfl rfl (by decide) rfl⟩

/-- C1, counterexample: `fetchByView(undefined)` resets the buckets but not the
data map, so a stale data entry (here `f2`, absent from the empty response)
keeps its view in the data map while its bucket no longer lists it. -/
theorem C1_counterexample :
    viewOf (SubscriptionActions.fetchByView none [] (mkWorld c1StaleState)).subs.data
        "f2" = some FeedViewType.Articles ∧
    "f2" ∉ (SubscriptionActions.fetchByView none []
      (mkWorld c1StaleState)).subs.feedIdByView FeedViewType.Articles := by
  constructor
  · decide
  · decide

/-- C1 (amended): after `fetchByView(undefined)` with a response whose feed ids
are pairwise distinct, every bucket entry has a matching data entry of that
bucket's view (no orphans); when additionally the prior data map is empty, each
view bucket equals, as a set, the feed ids whose stored view is that bucket's
key (no omissions either). -/
theorem C1_fetchByView_buckets_match_data (s : SubscriptionState)
    (resp : List SubscriptionModel)
    (hn : (resp.map SubscriptionModel.feedId).Nodup) :
    (∀ (v : FeedViewType) (f : String),
      f ∈ (fetchByViewLocal none resp s).feedIdByView v →
        viewOf (fetchByViewLocal none resp s).data f = some v) ∧
    (s.data = [] → ∀ (v : FeedViewType) (f : String),
      f ∈ (fetchByViewLocal none resp s).feedIdByView v ↔
        viewOf (fetchByViewLocal none resp s).data f = some v) := by
  have hminv := fetchByViewLocal_none_invariant s resp hn
  have hforward : ∀ (v : FeedViewType) (f : String),
      f ∈ (fetchByViewLocal none resp s).feedIdByView v →
        viewOf (fetchByViewLocal none resp s).data f = some v :=
    fun v f hf => (hminv v f hf).1
  refine ⟨hforward, ?_⟩
  intro hdata v f
  refine ⟨hforward v f, ?_⟩
  intro hv
  have hm : ((morphResponseData resp).map SubscriptionFlatModel.feedId).Nodup := by
    rw [morphResponseData_feedIds]
    exact hn
  have hd := upsertManyLocal_data (morphResponseData resp)
    { s with feedIdByView := emptyDataIdByView } f hm
  have hv2 : viewOf (upsertManyLocal (morphResponseData resp)
      { s with feedIdByView := emptyDataIdByView }).data f = some v := hv
  unfold viewOf at hv2
  rw [hd] at hv2
  cases hfind : (morphResponseData resp).find? (fun y => decide (y.feedId = f)) with
  | none =>
    rw [hfind] at hv2
    have : dataLookup ({ s with feedIdByView := emptyDataIdByView } :
        SubscriptionState).data f = none := by
      show dataLookup s.data f = none
      rw [hdata]
      rfl
    rw [this] at hv2
    simp at hv2
  | some x =>
    rw [hfind] at hv2
    have hx := List.mem_of_find?_eq_some hfind
    have hfx : x.feedId = f := by
      have := List.find?_some hfind
      simpa using this
    have hview : x.view = v := by
      simpa using hv2
    show f ∈ (upsertManyLocal (morphResponseData resp)
      { s with feedIdByView := emptyDataIdByView }).feedIdByView v
    rw [upsertManyLocal_bucket]
    refine List.mem_append.mpr (Or.inr ?_)
    refine List.mem_map.mpr ⟨x, ?_, hfx⟩
    exact List.mem_filter.mpr ⟨hx, by simp [hview]⟩

theorem C1_witness :
    ((c1Response.map SubscriptionModel.feedId).Nodup) ∧
    (emptyState.data = []) ∧
    ("a" ∈ (fetchByViewLocal none c1Response emptyState).feedIdByView
        FeedViewType.Articles ↔
      viewOf (fetchByViewLocal none c1Response emptyState).data "a" =
        some FeedViewType.Articles) :=
  ⟨by decide, rfl,
    (C1_fetchByView_buckets_match_data emptyState c1Response (by decide)).2 rfl
      FeedViewType.Articles "a"⟩

/-- C6, counterexample: when the matched feed id occurs twice in the source
bucket (reachable by repeated `upsertMany`), `changeCategoryView` collects and
pushes it twice, so it lands in the target bucket twice, not exactly once. -/
theorem C6_counterexample :
    occ ((SubscriptionActions.changeCategoryView "c" FeedViewType.Articles
        FeedViewType.Pictures true (mkWorld c6DupState)).subs.feedIdByView
          FeedViewType.Pictures) "f" = 2 := by
  decide

/-- C6 (amended): on a state satisfying the bucket invariant and for distinct
source and target views, a successful `changeCategoryView` removes every
matched feed id from the source bucket (leaving the unmatched ones in place,
in order), appends the matched ids to the target bucket where each then occurs
exactly once with its stored view updated to the target view, leaves every
other bucket unchanged, and leaves the data entries of unmatched feed ids
unchanged. -/
theorem C6_changeCategoryView_moves_matches (w : World) (category : String)
    (cv tv : FeedViewType) (hInv : Invariant w.subs) (hne : cv ≠ tv) :
    (SubscriptionActions.changeCategoryView category cv tv true w).subs.feedIdByView cv =
      (w.subs.feedIdByView cv).filter
        (fun f => decide (f ∉ matchedIds w.subs category cv)) ∧
    (SubscriptionActions.changeCategoryView category cv tv true w).subs.feedIdByView tv =
      w.subs.feedIdByView tv ++ matchedIds w.subs category cv ∧
    (∀ u : FeedViewType, u ≠ cv → u ≠ tv →
      (SubscriptionActions.changeCategoryView category cv tv true w).subs.feedIdByView u =
        w.subs.feedIdByView u) ∧
    (∀ f ∈ matchedIds w.subs category cv,
      viewOf (SubscriptionActions.changeCategoryView category cv tv true w).subs.data f =
          some tv ∧
        occ ((SubscriptionActions.changeCategoryView category cv tv
          true w).subs.feedIdByView tv) f = 1) ∧
    (∀ f, f ∉ matchedIds w.subs category cv →
      dataLookup (SubscriptionActions.changeCategoryView category cv tv
          true w).subs.data f = dataLookup w.subs.data f) := by
  have hsubs : (SubscriptionActions.changeCategoryView category cv tv true w).subs =
      (matchedIds w.subs category cv).foldl (changeViewStep cv tv) w.subs := rfl
  have hid_sub : ∀ i ∈ matchedIds w.subs category cv, i ∈ w.subs.feedIdByView cv :=
    fun i hi => (List.mem_filter.mp hi).1
  have hid_nodup : (matchedIds w.subs category cv).Nodup :=
    List.Nodup.filter _ (bucket_nodup_of_invariant w.subs hInv cv)
  have hid_occ : ∀ i ∈ matchedIds w.subs category cv,
      occ (w.subs.feedIdByView cv) i = 1 :=
    fun i hi => (hInv cv i (hid_sub i hi)).2.1
  have hdata := fold_changeViewStep_data cv tv (matchedIds w.subs category cv) w.subs
  refine ⟨?_, ?_, ?_, ?_, ?_⟩
  · rw [hsubs, fold_changeViewStep_bucket_from cv tv hne]
    exact foldl_spliceRemove_eq_filter _ _ hid_nodup hid_occ
  · rw [hsubs, fold_changeViewStep_bucket_to cv tv hne]
  · intro u h1 h2
    rw [hsubs]
    exact fold_changeViewStep_bucket_other cv tv _ w.subs u h1 h2
  · intro f hf
    constructor
    · have hlk := (hInv cv f (hid_sub f hf)).1
      rw [hsubs]
      unfold viewOf at hlk ⊢
      rw [hdata, dataLookup_map_updIf, if_pos hf]
      cases hl : dataLookup w.subs.data f with
      | none => rw [hl] at hlk; simp at hlk
      | some x => simp [setViewTo]
    · rw [hsubs, fold_changeViewStep_bucket_to cv tv hne, occ_append]
      have h1 : occ (matchedIds w.subs category cv) f = 1 :=
        occ_eq_one_of_nodup _ hid_nodup f hf
      have h0 : occ (w.subs.feedIdByView tv) f = 0 := by
        rw [occ_eq_zero_iff]
        intro hc
        exact hne ((hInv cv f (hid_sub f hf)).2.2 tv hc).symm
      omega
  · intro f hf
    rw [hsubs, hdata, dataLookup_map_updIf, if_neg hf]

theorem C6_witness :
    Invariant c6CleanState ∧ FeedViewType.Articles ≠ FeedViewType.Pictures ∧
    ((SubscriptionActions.changeCategoryView "c" FeedViewType.Articles
        FeedViewType.Pictures true (mkWorld c6CleanState)).subs.feedIdByView
          FeedViewType.Articles =
      (c6CleanState.feedIdByView FeedViewType.Articles).filter
        (fun f => decide (f ∉ matchedIds c6CleanState "c" FeedViewType.Articles)) ∧
     (SubscriptionActions.changeCategoryView "c" FeedViewType.Articles
        FeedViewType.Pictures true (mkWorld c6CleanState)).subs.feedIdByView
          FeedViewType.Pictures =
      c6CleanState.feedIdByView FeedViewType.Pictures ++
        matchedIds c6CleanState "c" FeedViewType.Articles ∧
     (∀ u : FeedViewType, u ≠ FeedViewType.Articles → u ≠ FeedViewType.Pictures →
       (SubscriptionActions.changeCategoryView "c" FeedViewType.Articles
          FeedViewType.Pictures true (mkWorld c6CleanState)).subs.feedIdByView u =
         c6CleanState.feedIdByView u) ∧
     (∀ f ∈ matchedIds c6CleanState "c" FeedViewType.Articles,
       viewOf (SubscriptionActions.changeCategoryView "c" FeedViewType.Articles
           FeedViewType.Pictures true (mkWorld c6CleanState)).subs.data f =
           some FeedViewType.Pictures ∧
         occ ((SubscriptionActions.changeCategoryView "c" FeedViewType.Articles
           FeedViewType.Pictures true (mkWorld c6CleanState)).subs.feedIdByView
             FeedViewType.Pictures) f = 1) ∧
     (∀ f, f ∉ matchedIds c6CleanState "c" FeedViewType.Articles →
       dataLookup (SubscriptionActions.changeCategoryView "c" FeedViewType.Articles
           FeedViewType.Pictures true (mkWorld c6CleanState)).subs.data f =
         dataLookup c6CleanState.data f)) :=
  ⟨by decide, by decide,
    C6_changeCategoryView_moves_matches (mkWorld c6CleanState) "c"
      FeedViewType.Articles FeedViewType.Pictures (by decide) (by decide)⟩

/-- C3, counterexample: `upsertMany` pushes the feed id onto the new view's
bucket without removing it from the old one, so re-upserting a subscription
with a changed view leaves the id in two buckets and its old bucket's view
stale — the invariant is not preserved. -/
theorem C3_counterexample :
    Invariant c3Base ∧
    ¬ Invariant (SubscriptionActions.upsertMany [c3Sub] (mkWorld c3Base)).subs := by
  constructor
  · decide
  · decide

/-- C3 (amended): the invariant (bucket entries backed by data entries of that
view, each id occurring once across all buckets) is preserved unconditionally
by `markReadByView`, `markReadByFeedIds`, `deleteCategory`, `unfollow`,
`changeCategoryView`, `renameCategory` and `clear`; `fetchByView(undefined)`
establishes it whenever the response's feed ids are pairwise distinct;
`fetchByView(v)` and `upsertMany` preserve it only under freshness conditions:
distinct incoming feed ids, each fetched subscription carrying the requested
view, and no incoming feed id already present in a bucket the call does not
reset. -/
theorem C3_operations_preserve_invariant :
    (∀ (s : SubscriptionState) (resp : List SubscriptionModel),
      (resp.map SubscriptionModel.feedId).Nodup →
      Invariant (fetchByViewLocal none resp s)) ∧
    (∀ (s : SubscriptionState) (v : FeedViewType) (resp : List SubscriptionModel),
      Invariant s → (resp.map SubscriptionModel.feedId).Nodup →
      (∀ m ∈ resp, m.view = v) →
      (∀ m ∈ resp, ∀ u : FeedViewType, u ≠ v → m.feedId ∉ s.feedIdByView u) →
      Invariant (fetchByViewLocal (some v) resp s)) ∧
    (∀ (w : World) (subs : List SubscriptionFlatModel),
      Invariant w.subs → (subs.map SubscriptionFlatModel.feedId).Nodup →
      (∀ x ∈ subs, ∀ u : FeedViewType, x.feedId ∉ w.subs.feedIdByView u) →
      Invariant (SubscriptionActions.upsertMany subs w).subs) ∧
    (∀ (w : World) (v : FeedViewType) (filter : Option MarkReadFilter)
        (remoteOk : Bool) (su : String → Nat),
      Invariant w.subs →
      Invariant (SubscriptionActions.markReadByView v filter remoteOk su w).subs) ∧
    (∀ (w : World) (feedIds : List String) (view : Option FeedViewType)
        (filter : Option MarkReadFilter) (remoteOk : Bool) (su : String → Nat),
      Invariant w.subs →
      Invariant (SubscriptionActions.markReadByFeedIds feedIds view filter
        remoteOk su w).subs) ∧
    (∀ (w : World) (feeds : String → Option Feed) (ids : List String)
        (remoteOk : Bool),
      Invariant w.subs →
      Invariant (SubscriptionActions.deleteCategory feeds ids remoteOk w).subs) ∧
    (∀ (w : World) (feedId : String) (remoteOk : Bool),
      Invariant w.subs →
      Invariant (SubscriptionActions.unfollow feedId remoteOk w).subs) ∧
    (∀ (w : World) (category : String) (cv tv : FeedViewType) (remoteOk : Bool),
      Invariant w.subs →
      Invariant (SubscriptionActions.changeCategoryView category cv tv remoteOk w).subs) ∧
    (∀ (w : World) (a b : String) (remoteOk : Bool),
      Invariant w.subs →
      Invariant (SubscriptionActions.renameCategory a b remoteOk w).subs) ∧
    (∀ w : World, Invariant (SubscriptionActions.clear w).subs) := by
  refine ⟨?_, ?_, ?_, ?_, ?_, ?_, ?_, ?_, ?_, clear_invariant⟩
  · exact fetchByViewLocal_none_invariant
  · intro s v resp hInv hn hview hfresh
    exact fetchByViewLocal_some_invariant s hInv v resp hn hview hfresh
  · intro w subs hInv hn hfresh
    exact upsertManyLocal_invariant w.subs hInv subs hn hfresh
  · intro w v filter remoteOk su hInv
    rw [markReadByView_subs]
    exact hInv
  · intro w feedIds view filter remoteOk su hInv
    rw [markReadByFeedIds_subs]
    exact hInv
  · intro w feeds ids remoteOk hInv
    cases remoteOk with
    | false => exact hInv
    | true => exact deleteCategoryLocal_invariant feeds ids w.subs hInv
  · intro w feedId remoteOk hInv
    exact unfollowLocal_invariant w.subs hInv feedId
  · intro w category cv tv remoteOk hInv
    cases remoteOk with
    | false => exact hInv
    | true => exact changeCategoryViewLocal_invariant w.subs hInv category cv tv
  · intro w a b remoteOk hInv
    exact renameCategoryLocal_invariant a b w.subs hInv

theorem C3_witness :
    Invariant c3Base ∧
    Invariant (SubscriptionActions.unfollow "f" true (mkWorld c3Base)).subs :=
  ⟨by decide,
    C3_operations_preserve_invariant.2.2.2.2.2.2.1 (mkWorld c3Base) "f" true
      (by decide)⟩
